import Mathlib

/-!
Shallow embedding of the queue admission controller of the shopverse
repository (`src/products/schemas/product.schema.ts`, class `QueueService`),
together with proofs of the specified properties.

The in-memory `Map`s of the service are modelled as association lists with
`Map` lookup/set/delete semantics; the Mongo product collection is a list of
product records, where `updateOne`/`findOne` act on the first record whose
`id` matches.  Time (`Date.now()`) and the generated queue id are passed as
explicit parameters.  Emitted `EventEmitter2` events are collected in an
output list.
-/

namespace Shopverse

/-- A product record of the backing store: only the fields the queue service
reads or writes (`id`, `stock`). -/
structure Product where
  id : String
  stock : Int
deriving DecidableEq

/-- `QueueItem` interface of `QueueService`. -/
structure QueueItem where
  id : String
  userId : String
  productId : String
  quantity : Int
  timestamp : Nat
  expiresAt : Nat
  userEmail : String
  userName : String
  reservedUntil : Nat
deriving DecidableEq

/-- `ProductQueue` interface of `QueueService`. -/
structure ProductQueue where
  productId : String
  maxQueueSize : Int
  items : List QueueItem
  processingTimeout : Nat
  isActive : Bool
deriving DecidableEq

/-- Events emitted through `EventEmitter2` by `QueueService`. -/
inductive Event where
  | queueJoined (userId productId queueId : String) (position : Nat)
  | queueLeft (userId productId queueId : String) (reason : String)
  | queueTimeout (userId productId queueId : String)
  | positionUpdated (userId productId queueId : String) (newPosition : Nat)
      (estimatedWaitTime : Nat)
  | paymentProcessed (userId productId : String) (quantity : Int)
deriving DecidableEq

/-- The mutable state of a `QueueService` instance plus the product
collection it reads and writes through `productModel`. -/
structure QueueState where
  products : List Product
  productQueues : List (String × ProductQueue)
  userQueues : List (String × List String)
deriving DecidableEq

/-- Result shape of `joinQueue`. -/
structure JoinResult where
  success : Bool
  position : Option Nat
  estimatedWaitTime : Option Nat
  queueId : Option String
  message : String
deriving DecidableEq

/-- `this.DEFAULT_QUEUE_SIZE = 10`. -/
def DEFAULT_QUEUE_SIZE : Int := 10

/-- `this.DEFAULT_TIMEOUT = 15 * 60 * 1000`. -/
def DEFAULT_TIMEOUT : Nat := 15 * 60 * 1000

/-- `this.LOW_STOCK_THRESHOLD = 5`. -/
def LOW_STOCK_THRESHOLD : Int := 5

/-- `Map.set` on an association list: replace the first binding of the key,
or append a new binding. -/
def mapSet {α : Type} (m : List (String × α)) (k : String) (v : α) :
    List (String × α) :=
  match m with
  | [] => [(k, v)]
  | (k2, v2) :: rest =>
    if k2 == k then (k, v) :: rest else (k2, v2) :: mapSet rest k v

/-- `Map.delete` on an association list. -/
def mapDelete {α : Type} (m : List (String × α)) (k : String) :
    List (String × α) :=
  m.filter (fun e => !(e.1 == k))

/-- `Array.prototype.findIndex`: index of the first element satisfying the
predicate. -/
def findIndex {α : Type} (p : α → Bool) : List α → Option Nat
  | [] => none
  | x :: xs => if p x then some 0 else (findIndex p xs).map (· + 1)

/-- Stock of the first product record with the given id (`findOne({ id })`),
0 when no such record exists. -/
def stockIn (ps : List Product) (pid : String) : Int :=
  match ps.find? (fun p => p.id == pid) with
  | some p => p.stock
  | none => 0

/-- `productModel.updateOne({ id: productId }, { $inc: { stock: delta } })`:
add `delta` to the stock of the first matching record. -/
def incStock (ps : List Product) (pid : String) (delta : Int) : List Product :=
  match ps with
  | [] => []
  | p :: rest =>
    if p.id == pid then { p with stock := p.stock + delta } :: rest
    else p :: incStock rest pid delta

/-- `QueueService.reserveStock`. -/
def reserveStock (st : QueueState) (pid : String) (quantity : Int) :
    QueueState :=
  { st with products := incStock st.products pid (-quantity) }

/-- `QueueService.releaseReservedStock`. -/
def releaseReservedStock (st : QueueState) (pid : String) (quantity : Int) :
    QueueState :=
  { st with products := incStock st.products pid quantity }

/-- `QueueService.updateActualStock` (lines 450-455): the method body is
empty, so it performs no state change at all. -/
def updateActualStock (st : QueueState) (_pid : String) (_quantity : Int) :
    QueueState :=
  st

/-- `QueueService.calculateEstimatedWaitTime`: `position * 2 * 60 * 1000`. -/
def calculateEstimatedWaitTime (position : Nat) : Nat :=
  position * 2 * 60 * 1000

/-- `QueueService.initializeProductQueue` (the queue record it constructs):
`maxQueueSize = Math.min(DEFAULT_QUEUE_SIZE, stock * 2)`. -/
def initializeProductQueue (pid : String) (stock : Int) : ProductQueue :=
  { productId := pid
    maxQueueSize := min DEFAULT_QUEUE_SIZE (stock * 2)
    items := []
    processingTimeout := DEFAULT_TIMEOUT
    isActive := true }

/-- `QueueService.isUserInQueue`. -/
def isUserInQueue (st : QueueState) (userId pid : String) : Bool :=
  match List.lookup userId st.userQueues with
  | some pids => pids.contains pid
  | none => false

/-- The inner mutation of `joinQueue` on `this.userQueues`: create the set
if absent, then `Set.add(productId)`. -/
def userQueuesAdd (uq : List (String × List String)) (userId pid : String) :
    List (String × List String) :=
  match List.lookup userId uq with
  | none => mapSet uq userId [pid]
  | some pids =>
    mapSet uq userId (if pids.contains pid then pids else pids ++ [pid])

/-- The reverse-index removal shared by `leaveQueue` and
`cleanupExpiredItems`: delete the product from the user's set, and delete
the user's key when the set becomes empty. -/
def userQueuesRemove (uq : List (String × List String)) (userId pid : String) :
    List (String × List String) :=
  match List.lookup userId uq with
  | none => uq
  | some pids =>
    let pids2 := pids.filter (fun x => !(x == pid))
    if pids2.isEmpty then mapDelete uq userId else mapSet uq userId pids2

/-- `this.userQueues.get(userId)`, defaulting to the empty set. -/
def userQueuesGet (uq : List (String × List String)) (userId : String) :
    List String :=
  (List.lookup userId uq).getD []

/-- `QueueService.updateQueuePositions`: emit one
`queue.position.updated` event per item, carrying `index + 1` and a fresh
wait estimate. -/
def updateQueuePositions (pq : ProductQueue) : List Event :=
  pq.items.enum.map (fun e =>
    Event.positionUpdated e.2.userId e.2.productId e.2.id (e.1 + 1)
      (calculateEstimatedWaitTime (e.1 + 1)))

/-- A failed `joinQueue` result. -/
def joinFail (msg : String) : JoinResult :=
  { success := false
    position := none
    estimatedWaitTime := none
    queueId := none
    message := msg }

/-- The `queueItem` literal allocated by `joinQueue`:
`expiresAt = reservedUntil = Date.now() + processingTimeout`. -/
def joinItem (userId pid : String) (quantity : Int)
    (userEmail userName : String) (now : Nat) (timeout : Nat) (qid : String) :
    QueueItem :=
  { id := qid
    userId := userId
    productId := pid
    quantity := quantity
    timestamp := now
    expiresAt := now + timeout
    userEmail := userEmail
    userName := userName
    reservedUntil := now + timeout }

/-- The queue `joinQueue` operates on: the existing queue of the resource,
or the one `initializeProductQueue` creates from the current stock. -/
def targetQueue (st : QueueState) (pid : String) (stock : Int) :
    ProductQueue :=
  match List.lookup pid st.productQueues with
  | some pq => pq
  | none => initializeProductQueue pid stock

/-- `QueueService.joinQueue`.  `now` stands for `Date.now()` and `qid` for
the result of `generateQueueId()`. -/
def joinQueue (st : QueueState) (userId pid : String) (quantity : Int)
    (userEmail userName : String) (now : Nat) (qid : String) :
    QueueState × JoinResult × List Event :=
  match st.products.find? (fun p => p.id == pid) with
  | none => (st, joinFail "Product not found", [])
  | some product =>
    if product.stock < quantity then
      (st, joinFail "Insufficient stock available", [])
    else if isUserInQueue st userId pid then
      (st, joinFail "You are already in queue for this product", [])
    else
      let searched :=
        match List.lookup pid st.productQueues with
        | some pq => (pq, st)
        | none =>
          let pq := initializeProductQueue pid product.stock
          (pq, { st with productQueues := mapSet st.productQueues pid pq })
      let productQueue := searched.1
      let st1 := searched.2
      if productQueue.maxQueueSize ≤ (productQueue.items.length : Int) then
        (st1,
         joinFail
           "Product is currently unavailable due to high demand. Please try again later.",
         [])
      else
        let queueItem : QueueItem :=
          joinItem userId pid quantity userEmail userName now
            productQueue.processingTimeout qid
        let newItems := productQueue.items ++ [queueItem]
        let st2 :=
          { st1 with
            productQueues :=
              mapSet st1.productQueues pid { productQueue with items := newItems } }
        let st3 := { st2 with userQueues := userQueuesAdd st2.userQueues userId pid }
        let st4 := reserveStock st3 pid quantity
        (st4,
         { success := true
           position := some newItems.length
           estimatedWaitTime := some (calculateEstimatedWaitTime newItems.length)
           queueId := some qid
           message := "Successfully joined the queue" },
         [Event.queueJoined userId pid qid newItems.length])

/-- The item filter of `leaveQueue`:
`item.userId === userId && (!queueId || item.id === queueId)`. -/
def leaveMatch (userId : String) (qid : Option String) (item : QueueItem) :
    Bool :=
  item.userId == userId &&
    (match qid with
     | none => true
     | some s => item.id == s)

/-- `QueueService.leaveQueue`. -/
def leaveQueue (st : QueueState) (userId pid : String) (qid : Option String) :
    QueueState × Bool × List Event :=
  match List.lookup pid st.productQueues with
  | none => (st, false, [])
  | some productQueue =>
    match findIndex (leaveMatch userId qid) productQueue.items with
    | none => (st, false, [])
    | some itemIndex =>
      match productQueue.items[itemIndex]? with
      | none => (st, false, [])
      | some removedItem =>
        let pq2 := { productQueue with items := productQueue.items.eraseIdx itemIndex }
        let st1 := { st with productQueues := mapSet st.productQueues pid pq2 }
        let st2 := releaseReservedStock st1 pid removedItem.quantity
        let st3 := { st2 with userQueues := userQueuesRemove st2.userQueues userId pid }
        (st3, true,
         updateQueuePositions pq2 ++
           [Event.queueLeft userId pid removedItem.id "manual"])

/-- `QueueService.processSuccessfulPayment`: `leaveQueue`, then the (empty)
`updateActualStock`, then the `payment.processed` event; returns `true`
unconditionally. -/
def processSuccessfulPayment (st : QueueState) (userId pid : String)
    (quantity : Int) : QueueState × Bool × List Event :=
  let r1 := leaveQueue st userId pid none
  let st2 := updateActualStock r1.1 pid quantity
  (st2, true, r1.2.2 ++ [Event.paymentProcessed userId pid quantity])

/-- One iteration of the inner loop of `cleanupExpiredItems`: locate the
expired item by id in the current item list, splice it out, release its
reserved quantity, update the reverse index, emit `queue.timeout`. -/
def removeExpiredOne (pid : String)
    (acc : List QueueItem × QueueState × List Event) (e : QueueItem) :
    List QueueItem × QueueState × List Event :=
  let cur := acc.1
  let st := acc.2.1
  let evs := acc.2.2
  match findIndex (fun item => item.id == e.id) cur with
  | none => acc
  | some i =>
    let st1 := releaseReservedStock st pid e.quantity
    let st2 := { st1 with userQueues := userQueuesRemove st1.userQueues e.userId pid }
    (cur.eraseIdx i, st2, evs ++ [Event.queueTimeout e.userId pid e.id])

/-- The body of `cleanupExpiredItems` for one `(productId, productQueue)`
map entry. -/
def cleanupQueue (now : Nat) (pid : String) (pq : ProductQueue)
    (st : QueueState) : QueueState × List Event :=
  let expiredItems := pq.items.filter (fun item => decide (item.expiresAt ≤ now))
  let r := expiredItems.foldl (removeExpiredOne pid) (pq.items, st, [])
  let pq2 := { pq with items := r.1 }
  let st2 := { r.2.1 with productQueues := mapSet r.2.1.productQueues pid pq2 }
  let evs2 :=
    if 0 < expiredItems.length then r.2.2 ++ updateQueuePositions pq2 else r.2.2
  let st3 :=
    if pq2.items.length = 0 then
      { st2 with productQueues := mapDelete st2.productQueues pid }
    else st2
  (st3, evs2)

/-- One outer-loop iteration of `cleanupExpiredItems`: process one map
entry, accumulating the emitted events. -/
def sweepStep (now : Nat) (acc : QueueState × List Event)
    (entry : String × ProductQueue) : QueueState × List Event :=
  let r := cleanupQueue now entry.1 entry.2 acc.1
  (r.1, acc.2 ++ r.2)

/-- `QueueService.cleanupExpiredItems`: one sweep tick at time `now`,
iterating over the queue map entries in order. -/
def cleanupExpiredItems (st : QueueState) (now : Nat) :
    QueueState × List Event :=
  st.productQueues.foldl (sweepStep now) (st, [])

/-- An operation of the queue service, with its external inputs (current
time, generated queue id) made explicit. -/
inductive Op where
  | join (userId pid : String) (quantity : Int) (userEmail userName : String)
      (now : Nat) (qid : String)
  | leave (userId pid : String) (qid : Option String)
  | paySuccess (userId pid : String) (quantity : Int)
  | sweep (now : Nat)

/-- State transition of a single operation. -/
def applyOp (st : QueueState) : Op → QueueState
  | .join u pid q ue un now qid => (joinQueue st u pid q ue un now qid).1
  | .leave u pid qid => (leaveQueue st u pid qid).1
  | .paySuccess u pid q => (processSuccessfulPayment st u pid q).1
  | .sweep now => (cleanupExpiredItems st now).1

/-- Total quantity held by a list of reservation entries. -/
def itemsSum (items : List QueueItem) : Int :=
  (items.map QueueItem.quantity).sum

/-- Reserved quantity total for a resource: the sum of the quantities of the
pending entries of its queue. -/
def reservedTotal (st : QueueState) (pid : String) : Int :=
  match List.lookup pid st.productQueues with
  | some pq => itemsSum pq.items
  | none => 0

/-- Some product record with the given id exists. -/
@[reducible] def hasProduct (ps : List Product) (pid : String) : Prop :=
  pid ∈ ps.map Product.id

/-- Structural well-formedness maintained by the service: queue-map keys are
distinct (`Map` semantics), every queued resource has a product record, and
the entry ids within one queue are distinct (ids come from
`generateQueueId`, unique by construction). -/
@[reducible] def stateWf (st : QueueState) : Prop :=
  (st.productQueues.map Prod.fst).Nodup ∧
    ∀ e ∈ st.productQueues,
      hasProduct st.products e.1 ∧ (e.2.items.map QueueItem.id).Nodup

/-- Well-formedness of an operation's external inputs: a generated queue id
is fresh for the queue it is inserted into. -/
def opWf (st : QueueState) : Op → Bool
  | .join _ pid _ _ _ _ qid =>
    match List.lookup pid st.productQueues with
    | some pq => !((pq.items.map QueueItem.id).contains qid)
    | none => true
  | _ => true

/-- The conservation invariant: reserved total plus externally visible stock
equals the stock at the last known truth. -/
def conservation (st : QueueState) (truth : String → Int) : Prop :=
  ∀ pid, reservedTotal st pid + stockIn st.products pid = truth pid

/-- The service state at start-up: product records from the store, no
queues, empty reverse index. -/
def initState (ps : List Product) : QueueState :=
  { products := ps, productQueues := [], userQueues := [] }

/-- The expired partition of a queue's entries at sweep time `now`. -/
def expiredOf (pq : ProductQueue) (now : Nat) : List QueueItem :=
  pq.items.filter (fun item => decide (item.expiresAt ≤ now))

/-- The live partition of a queue's entries at sweep time `now`. -/
def liveOf (pq : ProductQueue) (now : Nat) : List QueueItem :=
  pq.items.filter (fun item => !decide (item.expiresAt ≤ now))

theorem lookup_cons_ite {α : Type} (k : String) (e : String × α)
    (rest : List (String × α)) :
    List.lookup k (e :: rest) =
      if k == e.1 then some e.2 else List.lookup k rest := by
  rcases e with ⟨k2, v2⟩
  cases h : (k == k2) <;> simp [List.lookup, h]

theorem find?_cons_ite {α : Type} (p : α → Bool) (a : α) (l : List α) :
    List.find? p (a :: l) = if p a then some a else List.find? p l := by
  cases h : p a <;> simp [List.find?, h]

theorem lookup_mapSet_self {α : Type} (m : List (String × α)) (k : String)
    (v : α) : List.lookup k (mapSet m k v) = some v := by
  induction m with
  | nil => simp [mapSet, lookup_cons_ite]
  | cons e rest ih =>
    by_cases h : e.1 = k
    · simp [mapSet, h, lookup_cons_ite]
    · rw [show mapSet (e :: rest) k v = e :: mapSet rest k v by
        simp [mapSet, h]]
      rw [lookup_cons_ite]
      simp [Ne.symm h, ih]

theorem lookup_mapSet_ne {α : Type} (m : List (String × α)) (k k2 : String)
    (v : α) (h : k ≠ k2) :
    List.lookup k2 (mapSet m k v) = List.lookup k2 m := by
  induction m with
  | nil => simp [mapSet, lookup_cons_ite, Ne.symm h]
  | cons e rest ih =>
    by_cases h2 : e.1 = k
    · rw [show mapSet (e :: rest) k v = (k, v) :: rest by simp [mapSet, h2]]
      rw [lookup_cons_ite, lookup_cons_ite]
      simp [Ne.symm h, h2.symm ▸ (Ne.symm h)]
    · rw [show mapSet (e :: rest) k v = e :: mapSet rest k v by
        simp [mapSet, h2]]
      rw [lookup_cons_ite, lookup_cons_ite, ih]

theorem lookup_mapDelete_self {α : Type} (m : List (String × α))
    (k : String) : List.lookup k (mapDelete m k) = none := by
  induction m with
  | nil => simp [mapDelete]
  | cons e rest ih =>
    by_cases h : e.1 = k
    · rw [show mapDelete (e :: rest) k = mapDelete rest k by
        simp [mapDelete, List.filter_cons, h]]
      exact ih
    · rw [show mapDelete (e :: rest) k = e :: mapDelete rest k by
        simp [mapDelete, List.filter_cons, h]]
      rw [lookup_cons_ite]
      simp [Ne.symm h, ih]

theorem lookup_mapDelete_ne {α : Type} (m : List (String × α))
    (k k2 : String) (h : k ≠ k2) :
    List.lookup k2 (mapDelete m k) = List.lookup k2 m := by
  induction m with
  | nil => simp [mapDelete]
  | cons e rest ih =>
    by_cases h2 : e.1 = k
    · rw [show mapDelete (e :: rest) k = mapDelete rest k by
        simp [mapDelete, List.filter_cons, h2]]
      rw [lookup_cons_ite]
      simp [show k2 ≠ e.1 from fun he => h (by rw [← h2, ← he]), ih]
    · rw [show mapDelete (e :: rest) k = e :: mapDelete rest k by
        simp [mapDelete, List.filter_cons, h2]]
      rw [lookup_cons_ite, lookup_cons_ite, ih]

theorem mem_keys_mapSet {α : Type} (m : List (String × α)) (k k2 : String)
    (v : α) :
    k2 ∈ (mapSet m k v).map Prod.fst ↔ k2 = k ∨ k2 ∈ m.map Prod.fst := by
  induction m with
  | nil => simp [mapSet]
  | cons e rest ih =>
    by_cases h : e.1 = k
    · rw [show mapSet (e :: rest) k v = (k, v) :: rest by simp [mapSet, h]]
      subst h
      simp only [List.map_cons, List.mem_cons]
      tauto
    · rw [show mapSet (e :: rest) k v = e :: mapSet rest k v by
        simp [mapSet, h]]
      simp only [List.map_cons, List.mem_cons, ih]
      tauto

theorem keys_mapSet {α : Type} (m : List (String × α)) (k : String) (v : α)
    (h : (m.map Prod.fst).Nodup) : ((mapSet m k v).map Prod.fst).Nodup := by
  induction m with
  | nil => simp [mapSet]
  | cons e rest ih =>
    simp only [List.map_cons, List.nodup_cons] at h
    by_cases h2 : e.1 = k
    · rw [show mapSet (e :: rest) k v = (k, v) :: rest by simp [mapSet, h2]]
      simp only [List.map_cons, List.nodup_cons]
      exact ⟨h2 ▸ h.1, h.2⟩
    · rw [show mapSet (e :: rest) k v = e :: mapSet rest k v by
        simp [mapSet, h2]]
      simp only [List.map_cons, List.nodup_cons]
      refine ⟨fun hmem => ?_, ih h.2⟩
      rcases (mem_keys_mapSet rest k e.1 v).mp hmem with h3 | h3
      · exact h2 h3
      · exact h.1 h3

theorem keys_mapDelete {α : Type} (m : List (String × α)) (k : String)
    (h : (m.map Prod.fst).Nodup) : ((mapDelete m k).map Prod.fst).Nodup := by
  exact ((List.filter_sublist m).map Prod.fst).nodup h

theorem incStock_map_id (ps : List Product) (pid : String) (d : Int) :
    (incStock ps pid d).map Product.id = ps.map Product.id := by
  induction ps with
  | nil => simp [incStock]
  | cons p rest ih =>
    by_cases h : p.id = pid
    · simp [incStock, h]
    · rw [show incStock (p :: rest) pid d = p :: incStock rest pid d by
        simp [incStock, h]]
      simp [ih]

theorem hasProduct_incStock (ps : List Product) (pid pid2 : String)
    (d : Int) : hasProduct (incStock ps pid d) pid2 ↔ hasProduct ps pid2 := by
  unfold hasProduct
  rw [incStock_map_id]

theorem stockIn_incStock_self (ps : List Product) (pid : String) (d : Int)
    (h : hasProduct ps pid) :
    stockIn (incStock ps pid d) pid = stockIn ps pid + d := by
  induction ps with
  | nil => simp [hasProduct] at h
  | cons p rest ih =>
    by_cases h2 : p.id = pid
    · simp [incStock, stockIn, find?_cons_ite, h2]
    · rw [show incStock (p :: rest) pid d = p :: incStock rest pid d by
        simp [incStock, h2]]
      have h3 : hasProduct rest pid := by
        have h5 := h
        simp only [hasProduct, List.map_cons, List.mem_cons] at h5
        rcases h5 with h4 | h4
        · exact absurd h4.symm h2
        · exact h4
      simp only [stockIn, find?_cons_ite] at ih ⊢
      simp only [show (p.id == pid) = false by simpa using h2, if_false]
      exact ih h3

theorem stockIn_incStock_ne (ps : List Product) (pid pid2 : String) (d : Int)
    (h : pid ≠ pid2) : stockIn (incStock ps pid d) pid2 = stockIn ps pid2 := by
  induction ps with
  | nil => simp [incStock]
  | cons p rest ih =>
    by_cases h2 : p.id = pid
    · rw [show incStock (p :: rest) pid d =
          { p with stock := p.stock + d } :: rest by simp [incStock, h2]]
      simp [stockIn, find?_cons_ite, h2 ▸ h]
    · rw [show incStock (p :: rest) pid d = p :: incStock rest pid d by
        simp [incStock, h2]]
      by_cases h3 : p.id = pid2
      · simp [stockIn, find?_cons_ite, h3]
      · simp only [stockIn, find?_cons_ite] at ih ⊢
        simp only [show (p.id == pid2) = false by simpa using h3, if_false]
        exact ih

theorem incStock_incStock (ps : List Product) (pid : String) (a b : Int) :
    incStock (incStock ps pid a) pid b = incStock ps pid (a + b) := by
  induction ps with
  | nil => simp [incStock]
  | cons p rest ih =>
    by_cases h : p.id = pid
    · simp [incStock, h, add_assoc]
    · rw [show incStock (p :: rest) pid a = p :: incStock rest pid a by
        simp [incStock, h]]
      rw [show incStock (p :: incStock rest pid a) pid b =
          p :: incStock (incStock rest pid a) pid b by simp [incStock, h]]
      rw [show incStock (p :: rest) pid (a + b) =
          p :: incStock rest pid (a + b) by simp [incStock, h]]
      rw [ih]

theorem incStock_zero (ps : List Product) (pid : String) :
    incStock ps pid 0 = ps := by
  induction ps with
  | nil => simp [incStock]
  | cons p rest ih =>
    by_cases h : p.id = pid
    · rw [show incStock (p :: rest) pid 0 =
          { p with stock := p.stock + 0 } :: rest by simp [incStock, h]]
      rw [add_zero]
    · rw [show incStock (p :: rest) pid 0 = p :: incStock rest pid 0 by
        simp [incStock, h]]
      rw [ih]

theorem find?_isSome_iff_hasProduct (ps : List Product) (pid : String) :
    (ps.find? (fun p => p.id == pid)).isSome ↔ hasProduct ps pid := by
  induction ps with
  | nil => simp [hasProduct]
  | cons p rest ih =>
    rw [find?_cons_ite]
    by_cases h : p.id = pid
    · simp [hasProduct, h]
    · simp only [show (p.id == pid) = false by simpa using h,
        Bool.false_eq_true, if_false]
      rw [ih]
      simp only [hasProduct, List.map_cons, List.mem_cons]
      constructor
      · exact Or.inr
      · rintro (h2 | h2)
        · exact absurd h2.symm h
        · exact h2

theorem findIndex_some {α : Type} (p : α → Bool) (l : List α) (i : Nat)
    (h : findIndex p l = some i) :
    ∃ x, l[i]? = some x ∧ p x = true := by
  induction l generalizing i with
  | nil => simp [findIndex] at h
  | cons a rest ih =>
    by_cases h2 : p a
    · simp [findIndex, h2] at h
      exact ⟨a, by simp [← h], h2⟩
    · simp [findIndex, h2] at h
      obtain ⟨j, hj, hji⟩ := h
      obtain ⟨x, hx, hpx⟩ := ih j hj
      exact ⟨x, by simpa [← hji] using hx, hpx⟩

theorem findIndex_eq_none {α : Type} (p : α → Bool) (l : List α)
    (h : ∀ x ∈ l, p x = false) : findIndex p l = none := by
  induction l with
  | nil => simp [findIndex]
  | cons a rest ih =>
    simp [findIndex, h a (by simp), ih (fun x hx => h x (by simp [hx]))]

theorem itemsSum_append (a b : List QueueItem) :
    itemsSum (a ++ b) = itemsSum a + itemsSum b := by
  simp [itemsSum]

theorem itemsSum_partition (p : QueueItem → Bool) (l : List QueueItem) :
    itemsSum (l.filter p) + itemsSum (l.filter (fun x => !(p x))) =
      itemsSum l := by
  induction l with
  | nil => simp [itemsSum]
  | cons a rest ih =>
    cases h : p a
    · simp only [List.filter_cons, h, Bool.not_false, Bool.false_eq_true,
        if_false, if_true]
      simp only [itemsSum, List.map_cons, List.sum_cons] at ih ⊢
      omega
    · simp only [List.filter_cons, h, Bool.not_true, Bool.false_eq_true,
        if_false, if_true]
      simp only [itemsSum, List.map_cons, List.sum_cons] at ih ⊢
      omega

theorem mem_userQueuesGet_add (uq : List (String × List String))
    (u pid : String) : pid ∈ userQueuesGet (userQueuesAdd uq u pid) u := by
  unfold userQueuesAdd
  cases h : List.lookup u uq with
  | none => simp [userQueuesGet, lookup_mapSet_self]
  | some pids =>
    by_cases h2 : pids.contains pid
    · simp only [h2, if_true]
      simp only [userQueuesGet, lookup_mapSet_self, Option.getD_some]
      simpa using h2
    · simp only [h2, Bool.false_eq_true, if_false]
      simp [userQueuesGet, lookup_mapSet_self]

theorem not_mem_userQueuesGet_remove (uq : List (String × List String))
    (u pid : String) : pid ∉ userQueuesGet (userQueuesRemove uq u pid) u := by
  unfold userQueuesRemove
  cases h : List.lookup u uq with
  | none => simp [userQueuesGet, h]
  | some pids =>
    by_cases h2 : (pids.filter (fun x => !(x == pid))).isEmpty
    · simp only [h2, if_true]
      simp [userQueuesGet, lookup_mapDelete_self]
    · simp only [h2, Bool.false_eq_true, if_false]
      simp only [userQueuesGet, lookup_mapSet_self, Option.getD_some]
      intro hmem
      have := List.of_mem_filter hmem
      simp at this

theorem not_mem_userQueuesGet_remove_other (uq : List (String × List String))
    (u u2 pid p2 : String) (h : pid ∉ userQueuesGet uq u) :
    pid ∉ userQueuesGet (userQueuesRemove uq u2 p2) u := by
  unfold userQueuesRemove
  cases hl : List.lookup u2 uq with
  | none => exact h
  | some pids =>
    by_cases h2 : (pids.filter (fun x => !(x == p2))).isEmpty
    · simp only [h2, if_true]
      by_cases h3 : u2 = u
      · subst h3
        simp [userQueuesGet, lookup_mapDelete_self]
      · simpa [userQueuesGet, lookup_mapDelete_ne uq u2 u h3] using h
    · simp only [h2, Bool.false_eq_true, if_false]
      by_cases h3 : u2 = u
      · subst h3
        simp only [userQueuesGet, lookup_mapSet_self, Option.getD_some]
        intro hmem
        have h4 := List.mem_of_mem_filter hmem
        rw [userQueuesGet, hl, Option.getD_some] at h
        exact h h4
      · simpa [userQueuesGet, lookup_mapSet_ne uq u2 u _ h3] using h

theorem getElem?_eraseIdx_of_lt {α : Type} (l : List α) (i j : Nat)
    (h : j < i) : (l.eraseIdx i)[j]? = l[j]? := by
  induction l generalizing i j with
  | nil => simp [List.eraseIdx]
  | cons a rest ih =>
    cases i with
    | zero => omega
    | succ i2 =>
      rw [show (a :: rest).eraseIdx (i2 + 1) = a :: rest.eraseIdx i2 by
        simp [List.eraseIdx]]
      cases j with
      | zero => simp
      | succ j2 => simpa using ih i2 j2 (by omega)

theorem getElem?_eraseIdx_of_ge {α : Type} (l : List α) (i j : Nat)
    (hi : i < l.length) (h : i ≤ j) :
    (l.eraseIdx i)[j]? = l[j + 1]? := by
  induction l generalizing i j with
  | nil => simp at hi
  | cons a rest ih =>
    cases i with
    | zero =>
      rw [show (a :: rest).eraseIdx 0 = rest by simp [List.eraseIdx]]
      simp
    | succ i2 =>
      rw [show (a :: rest).eraseIdx (i2 + 1) = a :: rest.eraseIdx i2 by
        simp [List.eraseIdx]]
      cases j with
      | zero => omega
      | succ j2 =>
        have hi2 : i2 < rest.length := by simp at hi; omega
        simpa using ih i2 j2 hi2 (by omega)

/-- Whether the user currently holds an entry in the resource's queue. -/
def userHasEntry (st : QueueState) (u pid : String) : Bool :=
  match List.lookup pid st.productQueues with
  | none => false
  | some pq => pq.items.any (fun it => it.userId == u)

/-- Concrete scenario store: one product `R` with stock 5. -/
def exampleStore : QueueState := initState [{ id := "R", stock := 5 }]

/-- The state after `join(A, R, 2)` at time 0. -/
def exampleJoined : QueueState :=
  (joinQueue exampleStore "A" "R" 2 "a@x" "Alice" 0 "q1").1

/-- Claim C9: the estimated wait is strictly monotonically increasing in the
queue position (`calculateEstimatedWaitTime` is `position * 2 * 60 * 1000`,
a function of the position alone, independent of any entry's quantity). -/
theorem waitTime_strict_mono (p : Nat) (h : 1 ≤ p) :
    calculateEstimatedWaitTime p < calculateEstimatedWaitTime (p + 1) := by
  unfold calculateEstimatedWaitTime
  omega

theorem waitTime_strict_mono_witness :
    1 ≤ 1 ∧ calculateEstimatedWaitTime 1 < calculateEstimatedWaitTime 2 :=
  ⟨le_refl 1, waitTime_strict_mono 1 (le_refl 1)⟩

/-- Claim C1: the claim says `paymentSucceeded` leaves the backing stock
permanently reduced by the committed quantity.  The code does not: after
`join(A, R, 2)` takes stock from 5 to 3, `processSuccessfulPayment(A, R, 2)`
removes the entry and returns `true`, but `leaveQueue` restores the hold
and the empty-bodied `updateActualStock` never re-deducts it, so stock ends
at 5 rather than 3. -/
theorem processSuccessfulPayment_restores_stock :
    stockIn exampleJoined.products "R" = 3 ∧
    (processSuccessfulPayment exampleJoined "A" "R" 2).2.1 = true ∧
    stockIn (processSuccessfulPayment exampleJoined "A" "R" 2).1.products "R"
      = 5 ∧
    reservedTotal (processSuccessfulPayment exampleJoined "A" "R" 2).1 "R"
      = 0 := by
  decide

/-- Claim C10: `paymentSucceeded` for a user with no pending entry still
returns `true` and emits `payment.processed`, with the state unchanged. -/
theorem processSuccessfulPayment_absent_entry (st : QueueState)
    (u pid : String) (q : Int) (h : userHasEntry st u pid = false) :
    processSuccessfulPayment st u pid q =
      (st, true, [Event.paymentProcessed u pid q]) := by
  have hleave : leaveQueue st u pid none = (st, false, []) := by
    unfold leaveQueue
    unfold userHasEntry at h
    cases hl : List.lookup pid st.productQueues with
    | none => rfl
    | some pq =>
      rw [hl] at h
      have h1 : pq.items.any (fun it => it.userId == u) = false := h
      have hnone : findIndex (leaveMatch u none) pq.items = none := by
        apply findIndex_eq_none
        intro x hx
        have h2 : (x.userId == u) = false := by
          by_contra h3
          have h4 : pq.items.any (fun it => it.userId == u) = true :=
            List.any_eq_true.mpr ⟨x, hx, by simpa using h3⟩
          rw [h4] at h1
          exact absurd h1 (by simp)
        simp [leaveMatch, h2]
      simp only [hnone]
  simp only [processSuccessfulPayment, hleave, updateActualStock,
    List.nil_append]

theorem processSuccessfulPayment_absent_entry_witness :
    userHasEntry exampleStore "A" "R" = false ∧
    processSuccessfulPayment exampleStore "A" "R" 2 =
      (exampleStore, true, [Event.paymentProcessed "A" "R" 2]) :=
  ⟨by decide,
   processSuccessfulPayment_absent_entry exampleStore "A" "R" 2 (by decide)⟩

/-- Claim C5 counterexample: `leave` that empties a queue does not delete
the ResourceQueue record — the emptied record is still present in the queue
table afterwards. -/
theorem leaveQueue_keeps_empty_record_cex :
    (leaveQueue exampleJoined "A" "R" none).2.1 = true ∧
    List.lookup "R" (leaveQueue exampleJoined "A" "R" none).1.productQueues =
      some { productId := "R", maxQueueSize := 10, items := [],
             processingTimeout := DEFAULT_TIMEOUT, isActive := true } := by
  decide

/-- Ten distinct users who fill product `R`'s queue to capacity. -/
def c3Users : List String :=
  ["u0", "u1", "u2", "u3", "u4", "u5", "u6", "u7", "u8", "u9"]

/-- The state after ten quantity-1 joins on a stock-10 product: the queue
holds `maxQueueSize = 10` entries and the stock is exhausted. -/
def c3State : QueueState :=
  c3Users.foldl
    (fun st u => (joinQueue st u "R" 1 "e" "n" 0 ("id" ++ u)).1)
    (initState [{ id := "R", stock := 10 }])

/-- Claim C3 counterexample: a join attempted while the queue already holds
`maxSize` entries does not always fail with the QueueFull result — here the
stock check fires first and the join fails with the insufficient-stock
result instead. -/
theorem joinQueue_full_not_queueFull_cex :
    (List.lookup "R" c3State.productQueues).map
        (fun pq => ((pq.items.length : Int), pq.maxQueueSize)) =
      some (10, 10) ∧
    (joinQueue c3State "u10" "R" 1 "e" "n" 0 "q10").2.1 =
      joinFail "Insufficient stock available" := by
  decide

/-- Claim C4: `joinQueue` checks its preconditions in order — resource
exists, stock sufficient, user not already queued, queue below capacity —
the first failing check determines the structured failure result, and
every failure leaves the state unchanged (given `quantity ≥ 1`, as the
checkout controller enforces). -/
theorem joinQueue_precondition_order (st : QueueState) (u pid : String)
    (q : Int) (ue un : String) (now : Nat) (qid : String) (hq : 1 ≤ q) :
    (st.products.find? (fun p2 => p2.id == pid) = none →
      joinQueue st u pid q ue un now qid =
        (st, joinFail "Product not found", [])) ∧
    (∀ p, st.products.find? (fun p2 => p2.id == pid) = some p →
      p.stock < q →
      joinQueue st u pid q ue un now qid =
        (st, joinFail "Insufficient stock available", [])) ∧
    (∀ p, st.products.find? (fun p2 => p2.id == pid) = some p →
      ¬(p.stock < q) → isUserInQueue st u pid = true →
      joinQueue st u pid q ue un now qid =
        (st, joinFail "You are already in queue for this product", [])) ∧
    (∀ p pq, st.products.find? (fun p2 => p2.id == pid) = some p →
      ¬(p.stock < q) → isUserInQueue st u pid = false →
      List.lookup pid st.productQueues = some pq →
      pq.maxQueueSize ≤ (pq.items.length : Int) →
      joinQueue st u pid q ue un now qid =
        (st,
         joinFail
           "Product is currently unavailable due to high demand. Please try again later.",
         [])) ∧
    ((joinQueue st u pid q ue un now qid).2.1.success = false →
      (joinQueue st u pid q ue un now qid).1 = st) := by
  refine ⟨?_, ?_, ?_, ?_, ?_⟩
  · intro hfind
    simp only [joinQueue, hfind]
  · intro p hfind hstock
    simp only [joinQueue, hfind, if_pos hstock]
  · intro p hfind hstock huser
    simp only [joinQueue, hfind, if_neg hstock, huser, if_true]
  · intro p pq hfind hstock huser hlk hfull
    simp only [joinQueue, hfind, if_neg hstock, huser, Bool.false_eq_true,
      if_false, hlk, if_pos hfull]
  · intro hfail
    cases hfind : st.products.find? (fun p2 => p2.id == pid) with
    | none => simp only [joinQueue, hfind]
    | some p =>
      by_cases hstock : p.stock < q
      · simp only [joinQueue, hfind, if_pos hstock]
      · cases huser : isUserInQueue st u pid with
        | true =>
          simp only [joinQueue, hfind, if_neg hstock, huser, if_true]
        | false =>
          cases hlk : List.lookup pid st.productQueues with
          | some pq =>
            by_cases hfull : pq.maxQueueSize ≤ (pq.items.length : Int)
            · simp only [joinQueue, hfind, if_neg hstock, huser,
                Bool.false_eq_true, if_false, hlk, if_pos hfull]
            · exfalso
              have : (joinQueue st u pid q ue un now qid).2.1.success =
                  true := by
                simp only [joinQueue, hfind, if_neg hstock, huser,
                  Bool.false_eq_true, if_false, hlk, if_neg hfull]
              rw [this] at hfail
              exact absurd hfail (by simp)
          | none =>
            have hcap : ¬((initializeProductQueue pid p.stock).maxQueueSize ≤
                ((initializeProductQueue pid p.stock).items.length : Int)) := by
              simp only [initializeProductQueue, DEFAULT_QUEUE_SIZE,
                List.length_nil, Nat.cast_zero]
              have h1 : (1 : Int) ≤ p.stock := le_trans hq (not_lt.mp hstock)
              omega
            exfalso
            have : (joinQueue st u pid q ue un now qid).2.1.success =
                true := by
              simp only [joinQueue, hfind, if_neg hstock, huser,
                Bool.false_eq_true, if_false, hlk, if_neg hcap]
            rw [this] at hfail
            exact absurd hfail (by simp)

theorem joinQueue_precondition_order_witness :
    (1 : Int) ≤ 2 ∧
    joinQueue exampleStore "A" "X" 2 "a@x" "Alice" 0 "q1" =
      (exampleStore, joinFail "Product not found", []) := by
  refine ⟨by decide, ?_⟩
  exact (joinQueue_precondition_order exampleStore "A" "X" 2 "a@x" "Alice" 0
    "q1" (by decide)).1 (by decide)

/-- Claim C7: a join that passes all preconditions appends a new entry with
`expiresAt = now + holdDuration` at the tail of the FIFO, immediately
decrements the backing stock by the quantity, adds the resource to the
user's reverse index, emits a `queue.joined` event carrying the 1-based
tail position, and returns that position, an estimated wait and the
reservation id. -/
theorem joinQueue_success_spec (st : QueueState) (u pid : String) (q : Int)
    (ue un : String) (now : Nat) (qid : String) (p : Product)
    (hfind : st.products.find? (fun p2 => p2.id == pid) = some p)
    (hstock : ¬(p.stock < q))
    (huser : isUserInQueue st u pid = false)
    (hcap : ¬((targetQueue st pid p.stock).maxQueueSize ≤
      ((targetQueue st pid p.stock).items.length : Int))) :
    (joinQueue st u pid q ue un now qid).2.1 =
      { success := true
        position := some ((targetQueue st pid p.stock).items.length + 1)
        estimatedWaitTime := some (calculateEstimatedWaitTime
          ((targetQueue st pid p.stock).items.length + 1))
        queueId := some qid
        message := "Successfully joined the queue" } ∧
    (joinQueue st u pid q ue un now qid).2.2 =
      [Event.queueJoined u pid qid
        ((targetQueue st pid p.stock).items.length + 1)] ∧
    List.lookup pid (joinQueue st u pid q ue un now qid).1.productQueues =
      some { targetQueue st pid p.stock with
             items := (targetQueue st pid p.stock).items ++
               [joinItem u pid q ue un now
                 (targetQueue st pid p.stock).processingTimeout qid] } ∧
    stockIn (joinQueue st u pid q ue un now qid).1.products pid =
      stockIn st.products pid - q ∧
    pid ∈ userQueuesGet (joinQueue st u pid q ue un now qid).1.userQueues u := by
  have hhas : hasProduct st.products pid :=
    (find?_isSome_iff_hasProduct st.products pid).mp (by simp [hfind])
  cases hlk : List.lookup pid st.productQueues with
  | some pq =>
    have htq : targetQueue st pid p.stock = pq := by
      simp only [targetQueue, hlk]
    rw [htq] at hcap ⊢
    simp only [joinQueue, hfind, if_neg hstock, huser, Bool.false_eq_true,
      if_false, hlk, if_neg hcap]
    refine ⟨by simp, by simp, ?_, ?_, ?_⟩
    · simp only [reserveStock]
      rw [lookup_mapSet_self]
    · simp only [reserveStock]
      rw [stockIn_incStock_self st.products pid (-q) hhas]
      ring
    · simp only [reserveStock]
      exact mem_userQueuesGet_add st.userQueues u pid
  | none =>
    have htq : targetQueue st pid p.stock = initializeProductQueue pid p.stock := by
      simp only [targetQueue, hlk]
    rw [htq] at hcap ⊢
    simp only [joinQueue, hfind, if_neg hstock, huser, Bool.false_eq_true,
      if_false, hlk, if_neg hcap]
    refine ⟨by simp, by simp, ?_, ?_, ?_⟩
    · simp only [reserveStock]
      rw [lookup_mapSet_self]
    · simp only [reserveStock]
      rw [stockIn_incStock_self st.products pid (-q) hhas]
      ring
    · simp only [reserveStock]
      exact mem_userQueuesGet_add st.userQueues u pid

theorem joinQueue_success_spec_witness :
    isUserInQueue exampleStore "A" "R" = false ∧
    (joinQueue exampleStore "A" "R" 2 "a@x" "Alice" 0 "q1").2.2 =
      [Event.queueJoined "A" "R" "q1" 1] := by
  refine ⟨by decide, ?_⟩
  have h := joinQueue_success_spec exampleStore "A" "R" 2 "a@x" "Alice" 0
    "q1" { id := "R", stock := 5 } (by decide) (by decide) (by decide)
    (by decide)
  rw [h.2.1]
  decide

/-- Claim C8: a successful leave that removes the entry at index `i` keeps
the remaining entries in order (indices below `i` unchanged, indices above
`i` shifted down by one), and emits exactly one position-update event per
remaining entry, in queue order, carrying the new 1-based position and a
freshly computed wait estimate, followed by the `queue.left` event. -/
theorem leaveQueue_removal_spec (st : QueueState) (u pid : String)
    (qid : Option String) (pq : ProductQueue) (i : Nat) (r : QueueItem)
    (hpq : List.lookup pid st.productQueues = some pq)
    (hidx : findIndex (leaveMatch u qid) pq.items = some i)
    (hr : pq.items[i]? = some r) :
    (leaveQueue st u pid qid).2.1 = true ∧
    List.lookup pid (leaveQueue st u pid qid).1.productQueues =
      some { pq with items := pq.items.eraseIdx i } ∧
    (∀ j, j < i → (pq.items.eraseIdx i)[j]? = pq.items[j]?) ∧
    (∀ j, i ≤ j → (pq.items.eraseIdx i)[j]? = pq.items[j + 1]?) ∧
    (leaveQueue st u pid qid).2.2 =
      (pq.items.eraseIdx i).enum.map (fun e =>
        Event.positionUpdated e.2.userId e.2.productId e.2.id (e.1 + 1)
          (calculateEstimatedWaitTime (e.1 + 1))) ++
      [Event.queueLeft u pid r.id "manual"] := by
  have hlen : i < pq.items.length := by
    by_contra hge
    rw [List.getElem?_eq_none (by omega)] at hr
    exact absurd hr (by simp)
  simp only [leaveQueue, hpq, hidx, hr]
  refine ⟨by trivial, ?_, ?_, ?_, by trivial⟩
  · simp only [releaseReservedStock]
    rw [lookup_mapSet_self]
  · intro j hj
    exact getElem?_eraseIdx_of_lt pq.items i j hj
  · intro j hj
    exact getElem?_eraseIdx_of_ge pq.items i j hlen hj

/-- The concrete queue record after users A and B join resource R. -/
def exampleTwoJoined : QueueState :=
  (joinQueue (joinQueue exampleStore "A" "R" 1 "a@x" "Alice" 0 "qa").1
    "B" "R" 1 "b@x" "Bob" 0 "qb").1

/-- The queue record of `exampleTwoJoined` for resource R. -/
def examplePQ : ProductQueue :=
  { productId := "R"
    maxQueueSize := 10
    items :=
      [joinItem "A" "R" 1 "a@x" "Alice" 0 DEFAULT_TIMEOUT "qa",
       joinItem "B" "R" 1 "b@x" "Bob" 0 DEFAULT_TIMEOUT "qb"]
    processingTimeout := DEFAULT_TIMEOUT
    isActive := true }

theorem leaveQueue_removal_spec_witness :
    List.lookup "R" exampleTwoJoined.productQueues = some examplePQ ∧
    findIndex (leaveMatch "A" none) examplePQ.items = some 0 ∧
    (leaveQueue exampleTwoJoined "A" "R" none).2.1 = true := by
  refine ⟨by decide, by decide, ?_⟩
  exact (leaveQueue_removal_spec exampleTwoJoined "A" "R" none examplePQ 0
    (joinItem "A" "R" 1 "a@x" "Alice" 0 DEFAULT_TIMEOUT "qa")
    (by decide) (by decide) (by decide)).1

theorem lookup_mem {α : Type} (m : List (String × α)) (k : String) (v : α)
    (h : List.lookup k m = some v) : (k, v) ∈ m := by
  induction m with
  | nil => simp [List.lookup] at h
  | cons e rest ih =>
    rw [lookup_cons_ite] at h
    by_cases h2 : k = e.1
    · rw [if_pos (by simpa using h2)] at h
      have h3 : v = e.2 := by simpa using h.symm
      exact List.mem_cons.mpr (Or.inl (by rw [h2, h3]))
    · rw [if_neg (by simpa using h2)] at h
      exact List.mem_cons.mpr (Or.inr (ih h))

theorem lookup_eq_none_iff {α : Type} (m : List (String × α)) (k : String) :
    List.lookup k m = none ↔ k ∉ m.map Prod.fst := by
  induction m with
  | nil => simp
  | cons e rest ih =>
    rw [lookup_cons_ite]
    by_cases h2 : k = e.1
    · simp [h2]
    · simp only [show (k == e.1) = false by simpa using h2,
        Bool.false_eq_true, if_false, List.map_cons, List.mem_cons]
      rw [ih]
      constructor
      · intro h3 h4
        rcases h4 with h5 | h5
        · exact h2 h5
        · exact h3 h5
      · intro h3 h4
        exact h3 (Or.inr h4)

theorem mem_mapSet {α : Type} (m : List (String × α)) (k : String) (v : α)
    (e : String × α) (h : e ∈ mapSet m k v) : e = (k, v) ∨ e ∈ m := by
  induction m with
  | nil => simpa [mapSet] using h
  | cons e2 rest ih =>
    by_cases h2 : e2.1 = k
    · rw [show mapSet (e2 :: rest) k v = (k, v) :: rest by
        simp [mapSet, h2]] at h
      rcases List.mem_cons.mp h with h3 | h3
      · exact Or.inl h3
      · exact Or.inr (List.mem_cons.mpr (Or.inr h3))
    · rw [show mapSet (e2 :: rest) k v = e2 :: mapSet rest k v by
        simp [mapSet, h2]] at h
      rcases List.mem_cons.mp h with h3 | h3
      · exact Or.inr (by simp [h3])
      · rcases ih h3 with h4 | h4
        · exact Or.inl h4
        · exact Or.inr (by simp [h4])

theorem mem_mapDelete {α : Type} (m : List (String × α)) (k : String)
    (e : String × α) (h : e ∈ mapDelete m k) : e ∈ m :=
  List.mem_of_mem_filter h

theorem itemsSum_eraseIdx (l : List QueueItem) (i : Nat) (r : QueueItem)
    (h : l[i]? = some r) :
    itemsSum (l.eraseIdx i) = itemsSum l - r.quantity := by
  induction l generalizing i with
  | nil => simp at h
  | cons a rest ih =>
    cases i with
    | zero =>
      have h2 : r = a := by simpa using h.symm
      rw [show (a :: rest).eraseIdx 0 = rest by simp [List.eraseIdx]]
      simp only [itemsSum, List.map_cons, List.sum_cons, h2]
      ring
    | succ i2 =>
      rw [show (a :: rest).eraseIdx (i2 + 1) = a :: rest.eraseIdx i2 by
        simp [List.eraseIdx]]
      have h2 : rest[i2]? = some r := by simpa using h
      simp only [itemsSum, List.map_cons, List.sum_cons]
      have h3 := ih i2 h2
      simp only [itemsSum] at h3
      rw [h3]
      ring

theorem filter_id_ne_eq_self (l : List QueueItem) (s : String)
    (h : s ∉ l.map QueueItem.id) :
    l.filter (fun x => !(x.id == s)) = l := by
  induction l with
  | nil => simp
  | cons a rest ih =>
    simp only [List.map_cons, List.mem_cons] at h
    push_neg at h
    rw [List.filter_cons]
    rw [show (!(a.id == s)) = true by simpa using (Ne.symm h.1)]
    rw [if_pos rfl, ih h.2]

theorem findIndex_eraseIdx_by_id (l : List QueueItem) (e : QueueItem)
    (hnd : (l.map QueueItem.id).Nodup) (he : e ∈ l) :
    ∃ i, findIndex (fun x => x.id == e.id) l = some i ∧
      l[i]? = some e ∧
      l.eraseIdx i = l.filter (fun x => !(x.id == e.id)) := by
  induction l with
  | nil => cases he
  | cons a rest ih =>
    simp only [List.map_cons, List.nodup_cons] at hnd
    by_cases h : a.id = e.id
    · have hea : e = a := by
        rcases List.mem_cons.mp he with h2 | h2
        · exact h2
        · exact absurd (h ▸ (List.mem_map.mpr ⟨e, h2, rfl⟩)) hnd.1
      refine ⟨0, by simp [findIndex, h], by simp [hea], ?_⟩
      rw [show (a :: rest).eraseIdx 0 = rest by simp [List.eraseIdx]]
      rw [List.filter_cons]
      rw [show (!(a.id == e.id)) = false by simp [h]]
      simp only [Bool.false_eq_true, if_false]
      exact (filter_id_ne_eq_self rest e.id (h ▸ hnd.1)).symm
    · have hmem : e ∈ rest := by
        rcases List.mem_cons.mp he with h2 | h2
        · exact absurd (congrArg QueueItem.id h2.symm) h
        · exact h2
      obtain ⟨i, hfi, hgi, hei⟩ := ih hnd.2 hmem
      refine ⟨i + 1, ?_, by simpa using hgi, ?_⟩
      · simp [findIndex, show (a.id == e.id) = false by simpa using h, hfi]
      · rw [show (a :: rest).eraseIdx (i + 1) = a :: rest.eraseIdx i by
          simp [List.eraseIdx]]
        rw [List.filter_cons]
        rw [show (!(a.id == e.id)) = true by simpa using h]
        rw [if_pos rfl, hei]

theorem removeExpired_fold_spec (pid : String) (es : List QueueItem) :
    ∀ (cur : List QueueItem) (st : QueueState) (evs : List Event),
    (cur.map QueueItem.id).Nodup →
    (∀ e ∈ es, e ∈ cur) →
    (es.map QueueItem.id).Nodup →
    es.foldl (removeExpiredOne pid) (cur, st, evs) =
      (cur.filter (fun x => !(es.any (fun e2 => x.id == e2.id))),
       { st with
         products := incStock st.products pid (itemsSum es)
         userQueues := es.foldl
           (fun uq e => userQueuesRemove uq e.userId pid) st.userQueues },
       evs ++ es.map (fun e => Event.queueTimeout e.userId pid e.id)) := by
  induction es with
  | nil =>
    intro cur st evs hnd hes hesnd
    simp only [List.foldl_nil, List.any_nil, Bool.not_false, List.filter_true,
      List.map_nil, List.append_nil]
    rw [show itemsSum [] = 0 by simp [itemsSum], incStock_zero]
  | cons e es ih =>
    intro cur st evs hnd hes hesnd
    simp only [List.map_cons, List.nodup_cons] at hesnd
    rw [List.foldl_cons]
    obtain ⟨i, hfi, hgi, hei⟩ :=
      findIndex_eraseIdx_by_id cur e hnd (hes e (by simp))
    rw [show removeExpiredOne pid (cur, st, evs) e =
        (cur.eraseIdx i,
         { st with
           products := incStock st.products pid e.quantity
           userQueues := userQueuesRemove st.userQueues e.userId pid },
         evs ++ [Event.queueTimeout e.userId pid e.id]) by
      simp only [removeExpiredOne, releaseReservedStock, hfi]]
    rw [hei]
    rw [ih (cur.filter (fun x => !(x.id == e.id))) _ _
      (((List.filter_sublist cur).map QueueItem.id).nodup hnd)
      (fun e2 he2 => List.mem_filter.mpr
        ⟨hes e2 (by simp [he2]),
         by
           have h3 : e2.id ≠ e.id := fun h4 =>
             hesnd.1 (h4 ▸ (List.mem_map.mpr ⟨e2, he2, rfl⟩))
           simpa using h3⟩)
      hesnd.2]
    have hitems : (cur.filter (fun x => !(x.id == e.id))).filter
        (fun x => !(es.any (fun e2 => x.id == e2.id))) =
        cur.filter (fun x => !((e :: es).any (fun e2 => x.id == e2.id))) := by
      rw [List.filter_filter]
      apply List.filter_congr
      intro x _
      cases hx : (x.id == e.id) <;>
        cases hy : (es.any (fun e2 => x.id == e2.id)) <;>
        simp [List.any_cons, hx, hy]
    have hsum : e.quantity + itemsSum es = itemsSum (e :: es) := by
      simp [itemsSum]
    simp only [hitems, incStock_incStock, hsum, List.foldl_cons,
      List.map_cons, List.append_assoc, List.singleton_append]

theorem final_items_eq_live (pq : ProductQueue) (now : Nat)
    (hnd : (pq.items.map QueueItem.id).Nodup) :
    pq.items.filter
        (fun x => !((expiredOf pq now).any (fun e2 => x.id == e2.id))) =
      liveOf pq now := by
  unfold liveOf
  apply List.filter_congr
  intro x hx
  suffices h : (expiredOf pq now).any (fun e2 => x.id == e2.id) =
      decide (x.expiresAt ≤ now) by rw [h]
  cases hany : (expiredOf pq now).any (fun e2 => x.id == e2.id) with
  | false =>
    cases hdec : decide (x.expiresAt ≤ now) with
    | false => rfl
    | true =>
      exfalso
      have hxe : x ∈ expiredOf pq now :=
        show x ∈ pq.items.filter (fun item => decide (item.expiresAt ≤ now))
          from List.mem_filter.mpr ⟨hx, hdec⟩
      have h2 : (expiredOf pq now).any (fun e2 => x.id == e2.id) = true :=
        List.any_eq_true.mpr ⟨x, hxe, by simp⟩
      rw [hany] at h2
      exact absurd h2 (by simp)
  | true =>
    cases hdec : decide (x.expiresAt ≤ now) with
    | true => rfl
    | false =>
      exfalso
      obtain ⟨e2, he2, hbeq⟩ := List.any_eq_true.mp hany
      have hid : x.id = e2.id := by simpa using hbeq
      have he2f : e2 ∈ pq.items.filter
          (fun item => decide (item.expiresAt ≤ now)) := he2
      have he2m : e2 ∈ pq.items := List.mem_of_mem_filter he2f
      have hxeq : x = e2 := List.inj_on_of_nodup_map hnd hx he2m hid
      have h3 : decide (e2.expiresAt ≤ now) = true :=
        (List.mem_filter.mp he2f).2
      rw [← hxeq, hdec] at h3
      exact absurd h3 (by simp)

theorem cleanupQueue_spec (now : Nat) (pid : String) (pq : ProductQueue)
    (st : QueueState) (hnd : (pq.items.map QueueItem.id).Nodup) :
    cleanupQueue now pid pq st =
      ({ st with
          products := incStock st.products pid (itemsSum (expiredOf pq now))
          userQueues := (expiredOf pq now).foldl
            (fun uq e => userQueuesRemove uq e.userId pid) st.userQueues
          productQueues :=
            if (liveOf pq now).length = 0 then
              mapDelete (mapSet st.productQueues pid
                { pq with items := liveOf pq now }) pid
            else
              mapSet st.productQueues pid { pq with items := liveOf pq now } },
       (expiredOf pq now).map
           (fun e => Event.queueTimeout e.userId pid e.id) ++
         (if 0 < (expiredOf pq now).length
          then updateQueuePositions { pq with items := liveOf pq now }
          else [])) := by
  have hfe := removeExpired_fold_spec pid
    (pq.items.filter (fun item => decide (item.expiresAt ≤ now)))
    pq.items st [] hnd (fun e he => List.mem_of_mem_filter he)
    (((List.filter_sublist pq.items).map QueueItem.id).nodup hnd)
  have hfl : pq.items.filter
      (fun x => !((pq.items.filter
        (fun item => decide (item.expiresAt ≤ now))).any
          (fun e2 => x.id == e2.id))) = liveOf pq now :=
    final_items_eq_live pq now hnd
  simp only [cleanupQueue]
  rw [hfe, hfl]
  by_cases hlen : (liveOf pq now).length = 0 <;>
    by_cases hexp :
      0 < (pq.items.filter (fun item => decide (item.expiresAt ≤ now))).length <;>
    simp [hlen, hexp, expiredOf]

/-- The events one sweep iteration emits for one queue entry. -/
def sweepEvents (now : Nat) (pid : String) (pq : ProductQueue) : List Event :=
  (expiredOf pq now).map (fun e => Event.queueTimeout e.userId pid e.id) ++
    (if 0 < (expiredOf pq now).length
     then updateQueuePositions { pq with items := liveOf pq now }
     else [])

theorem foldRemove_absence (pid u pidX : String) (es : List QueueItem) :
    ∀ uq, pidX ∉ userQueuesGet uq u →
    pidX ∉ userQueuesGet
      (es.foldl (fun uq2 e2 => userQueuesRemove uq2 e2.userId pid) uq) u := by
  induction es with
  | nil => intro uq h; exact h
  | cons a es ih =>
    intro uq h
    rw [List.foldl_cons]
    exact ih _ (not_mem_userQueuesGet_remove_other uq u a.userId pidX pid h)

theorem foldRemove_removes (pid : String) (es : List QueueItem) :
    ∀ uq (e : QueueItem), e ∈ es →
    pid ∉ userQueuesGet
      (es.foldl (fun uq2 e2 => userQueuesRemove uq2 e2.userId pid) uq)
      e.userId := by
  induction es with
  | nil => intro uq e he; cases he
  | cons a es ih =>
    intro uq e he
    rw [List.foldl_cons]
    rcases List.mem_cons.mp he with heq | hrest
    · subst heq
      exact foldRemove_absence pid e.userId pid es _
        (not_mem_userQueuesGet_remove uq e.userId pid)
    · exact ih _ e hrest

theorem cleanupQueue_events (now : Nat) (pid : String) (pq : ProductQueue)
    (st : QueueState) (hnd : (pq.items.map QueueItem.id).Nodup) :
    (cleanupQueue now pid pq st).2 = sweepEvents now pid pq := by
  rw [cleanupQueue_spec now pid pq st hnd]
  rfl

theorem cleanupQueue_products_id (now : Nat) (pid : String)
    (pq : ProductQueue) (st : QueueState)
    (hnd : (pq.items.map QueueItem.id).Nodup) :
    ((cleanupQueue now pid pq st).1.products).map Product.id =
      st.products.map Product.id := by
  rw [cleanupQueue_spec now pid pq st hnd]
  exact incStock_map_id st.products pid (itemsSum (expiredOf pq now))

theorem cleanupQueue_stock_self (now : Nat) (pid : String)
    (pq : ProductQueue) (st : QueueState)
    (hnd : (pq.items.map QueueItem.id).Nodup)
    (hhas : hasProduct st.products pid) :
    stockIn (cleanupQueue now pid pq st).1.products pid =
      stockIn st.products pid + itemsSum (expiredOf pq now) := by
  rw [cleanupQueue_spec now pid pq st hnd]
  exact stockIn_incStock_self st.products pid (itemsSum (expiredOf pq now)) hhas

theorem cleanupQueue_stock_other (now : Nat) (pid pid2 : String)
    (pq : ProductQueue) (st : QueueState)
    (hnd : (pq.items.map QueueItem.id).Nodup) (hne : pid ≠ pid2) :
    stockIn (cleanupQueue now pid pq st).1.products pid2 =
      stockIn st.products pid2 := by
  rw [cleanupQueue_spec now pid pq st hnd]
  exact stockIn_incStock_ne st.products pid pid2 _ hne

theorem cleanupQueue_lookup_self (now : Nat) (pid : String)
    (pq : ProductQueue) (st : QueueState)
    (hnd : (pq.items.map QueueItem.id).Nodup) :
    List.lookup pid (cleanupQueue now pid pq st).1.productQueues =
      if (liveOf pq now).length = 0 then none
      else some { pq with items := liveOf pq now } := by
  rw [cleanupQueue_spec now pid pq st hnd]
  by_cases hlen : (liveOf pq now).length = 0
  · simp only [hlen, if_true]
    exact lookup_mapDelete_self _ pid
  · simp only [hlen, if_false]
    exact lookup_mapSet_self _ pid _

theorem cleanupQueue_lookup_other (now : Nat) (pid pid2 : String)
    (pq : ProductQueue) (st : QueueState)
    (hnd : (pq.items.map QueueItem.id).Nodup) (hne : pid ≠ pid2) :
    List.lookup pid2 (cleanupQueue now pid pq st).1.productQueues =
      List.lookup pid2 st.productQueues := by
  rw [cleanupQueue_spec now pid pq st hnd]
  by_cases hlen : (liveOf pq now).length = 0
  · simp only [hlen, if_true]
    rw [lookup_mapDelete_ne _ pid pid2 hne]
    exact lookup_mapSet_ne _ pid pid2 _ hne
  · simp only [hlen, if_false]
    exact lookup_mapSet_ne _ pid pid2 _ hne

theorem cleanupQueue_absence_self (now : Nat) (pid : String)
    (pq : ProductQueue) (st : QueueState)
    (hnd : (pq.items.map QueueItem.id).Nodup) (e : QueueItem)
    (he : e ∈ expiredOf pq now) :
    pid ∉ userQueuesGet (cleanupQueue now pid pq st).1.userQueues e.userId := by
  rw [cleanupQueue_spec now pid pq st hnd]
  exact foldRemove_removes pid (expiredOf pq now) st.userQueues e he

theorem cleanupQueue_absence_frame (now : Nat) (pid : String)
    (pq : ProductQueue) (st : QueueState)
    (hnd : (pq.items.map QueueItem.id).Nodup) (u pidX : String)
    (h : pidX ∉ userQueuesGet st.userQueues u) :
    pidX ∉ userQueuesGet (cleanupQueue now pid pq st).1.userQueues u := by
  rw [cleanupQueue_spec now pid pq st hnd]
  exact foldRemove_absence pid u pidX (expiredOf pq now) st.userQueues h

theorem sweep_fold_lookup_frame (now : Nat) (pid : String)
    (rem : List (String × ProductQueue)) :
    ∀ (st : QueueState) (evs : List Event),
    (∀ en ∈ rem, (en.2.items.map QueueItem.id).Nodup) →
    pid ∉ rem.map Prod.fst →
    List.lookup pid (rem.foldl (sweepStep now) (st, evs)).1.productQueues =
      List.lookup pid st.productQueues := by
  induction rem with
  | nil => intro st evs _ _; rfl
  | cons en rem ih =>
    intro st evs hnds hnm
    simp only [List.map_cons, List.mem_cons] at hnm
    push_neg at hnm
    rw [List.foldl_cons]
    rw [show sweepStep now (st, evs) en =
        ((cleanupQueue now en.1 en.2 st).1,
         evs ++ (cleanupQueue now en.1 en.2 st).2) from rfl]
    rw [ih _ _ (fun e2 he2 => hnds e2 (by simp [he2])) hnm.2]
    exact cleanupQueue_lookup_other now en.1 pid en.2 st
      (hnds en (by simp)) (Ne.symm hnm.1)

theorem sweep_fold_stock_frame (now : Nat) (pid : String)
    (rem : List (String × ProductQueue)) :
    ∀ (st : QueueState) (evs : List Event),
    (∀ en ∈ rem, (en.2.items.map QueueItem.id).Nodup) →
    pid ∉ rem.map Prod.fst →
    stockIn (rem.foldl (sweepStep now) (st, evs)).1.products pid =
      stockIn st.products pid := by
  induction rem with
  | nil => intro st evs _ _; rfl
  | cons en rem ih =>
    intro st evs hnds hnm
    simp only [List.map_cons, List.mem_cons] at hnm
    push_neg at hnm
    rw [List.foldl_cons]
    rw [show sweepStep now (st, evs) en =
        ((cleanupQueue now en.1 en.2 st).1,
         evs ++ (cleanupQueue now en.1 en.2 st).2) from rfl]
    rw [ih _ _ (fun e2 he2 => hnds e2 (by simp [he2])) hnm.2]
    exact cleanupQueue_stock_other now en.1 pid en.2 st
      (hnds en (by simp)) (Ne.symm hnm.1)

theorem sweep_fold_absence (now : Nat) (u pidX : String)
    (rem : List (String × ProductQueue)) :
    ∀ (st : QueueState) (evs : List Event),
    (∀ en ∈ rem, (en.2.items.map QueueItem.id).Nodup) →
    pidX ∉ userQueuesGet st.userQueues u →
    pidX ∉ userQueuesGet
      (rem.foldl (sweepStep now) (st, evs)).1.userQueues u := by
  induction rem with
  | nil => intro st evs _ h; exact h
  | cons en rem ih =>
    intro st evs hnds h
    rw [List.foldl_cons]
    rw [show sweepStep now (st, evs) en =
        ((cleanupQueue now en.1 en.2 st).1,
         evs ++ (cleanupQueue now en.1 en.2 st).2) from rfl]
    exact ih _ _ (fun e2 he2 => hnds e2 (by simp [he2]))
      (cleanupQueue_absence_frame now en.1 en.2 st (hnds en (by simp)) u pidX h)

theorem sweep_fold_products_id (now : Nat)
    (rem : List (String × ProductQueue)) :
    ∀ (st : QueueState) (evs : List Event),
    (∀ en ∈ rem, (en.2.items.map QueueItem.id).Nodup) →
    ((rem.foldl (sweepStep now) (st, evs)).1.products).map Product.id =
      st.products.map Product.id := by
  induction rem with
  | nil => intro st evs _; rfl
  | cons en rem ih =>
    intro st evs hnds
    rw [List.foldl_cons]
    rw [show sweepStep now (st, evs) en =
        ((cleanupQueue now en.1 en.2 st).1,
         evs ++ (cleanupQueue now en.1 en.2 st).2) from rfl]
    rw [ih _ _ (fun e2 he2 => hnds e2 (by simp [he2]))]
    exact cleanupQueue_products_id now en.1 en.2 st (hnds en (by simp))

theorem sweep_fold_state_spec (now : Nat)
    (rem : List (String × ProductQueue)) :
    ∀ (st : QueueState) (evs : List Event) (pid : String)
      (pq : ProductQueue),
    (rem.map Prod.fst).Nodup →
    (∀ en ∈ rem, (en.2.items.map QueueItem.id).Nodup) →
    (pid, pq) ∈ rem →
    hasProduct st.products pid →
    (List.lookup pid (rem.foldl (sweepStep now) (st, evs)).1.productQueues =
      if (liveOf pq now).length = 0 then none
      else some { pq with items := liveOf pq now }) ∧
    stockIn (rem.foldl (sweepStep now) (st, evs)).1.products pid =
      stockIn st.products pid + itemsSum (expiredOf pq now) ∧
    ∀ e ∈ expiredOf pq now,
      pid ∉ userQueuesGet
        (rem.foldl (sweepStep now) (st, evs)).1.userQueues e.userId := by
  induction rem with
  | nil => intro st evs pid pq _ _ hmem _; cases hmem
  | cons en rem ih =>
    intro st evs pid pq hkeys hnds hmem hhas
    simp only [List.map_cons, List.nodup_cons] at hkeys
    rw [List.foldl_cons]
    rw [show sweepStep now (st, evs) en =
        ((cleanupQueue now en.1 en.2 st).1,
         evs ++ (cleanupQueue now en.1 en.2 st).2) from rfl]
    rcases List.mem_cons.mp hmem with heq | hrest
    · have hpid : en.1 = pid := by rw [← heq]
      have hpq : en.2 = pq := by rw [← heq]
      have hnotin : pid ∉ rem.map Prod.fst := hpid ▸ hkeys.1
      have hndpq : (pq.items.map QueueItem.id).Nodup :=
        hpq ▸ hnds en (by simp)
      have hnds2 : ∀ en2 ∈ rem, (en2.2.items.map QueueItem.id).Nodup :=
        fun e2 he2 => hnds e2 (by simp [he2])
      refine ⟨?_, ?_, ?_⟩
      · rw [sweep_fold_lookup_frame now pid rem _ _ hnds2 hnotin]
        rw [show cleanupQueue now en.1 en.2 st =
            cleanupQueue now pid pq st by rw [hpid, hpq]]
        exact cleanupQueue_lookup_self now pid pq st hndpq
      · rw [sweep_fold_stock_frame now pid rem _ _ hnds2 hnotin]
        rw [show cleanupQueue now en.1 en.2 st =
            cleanupQueue now pid pq st by rw [hpid, hpq]]
        exact cleanupQueue_stock_self now pid pq st hndpq hhas
      · intro e he
        apply sweep_fold_absence now e.userId pid rem _ _ hnds2
        rw [show cleanupQueue now en.1 en.2 st =
            cleanupQueue now pid pq st by rw [hpid, hpq]]
        exact cleanupQueue_absence_self now pid pq st hndpq e he
    · have hhas2 : hasProduct (cleanupQueue now en.1 en.2 st).1.products pid := by
        unfold hasProduct
        rw [cleanupQueue_products_id now en.1 en.2 st (hnds en (by simp))]
        exact hhas
      have hne : en.1 ≠ pid := by
        intro hcontra
        exact hkeys.1 (hcontra ▸ (List.mem_map.mpr ⟨(pid, pq), hrest, rfl⟩))
      obtain ⟨ha, hb, hc⟩ := ih _ (evs ++ (cleanupQueue now en.1 en.2 st).2)
        pid pq hkeys.2 (fun e2 he2 => hnds e2 (by simp [he2])) hrest hhas2
      refine ⟨ha, ?_, hc⟩
      rw [hb, cleanupQueue_stock_other now en.1 pid en.2 st
        (hnds en (by simp)) hne]

theorem sweep_fold_events (now : Nat) (rem : List (String × ProductQueue)) :
    ∀ (st : QueueState) (evs : List Event),
    (∀ en ∈ rem, (en.2.items.map QueueItem.id).Nodup) →
    (rem.foldl (sweepStep now) (st, evs)).2 =
      evs ++ (rem.map (fun en => sweepEvents now en.1 en.2)).join := by
  induction rem with
  | nil => intro st evs _; simp
  | cons en rem ih =>
    intro st evs hnds
    rw [List.foldl_cons]
    rw [show sweepStep now (st, evs) en =
        ((cleanupQueue now en.1 en.2 st).1,
         evs ++ (cleanupQueue now en.1 en.2 st).2) from rfl]
    rw [ih _ _ (fun e2 he2 => hnds e2 (by simp [he2]))]
    rw [cleanupQueue_events now en.1 en.2 st (hnds en (by simp))]
    simp [List.join]

theorem count_timeout_updates (pq : ProductQueue) (u pid i : String) :
    (updateQueuePositions pq).count (Event.queueTimeout u pid i) = 0 := by
  rw [List.count_eq_zero]
  intro hmem
  obtain ⟨x, _, hx⟩ := List.mem_map.mp hmem
  exact Event.noConfusion hx

theorem count_timeout_map_ne_pid (es : List QueueItem) (u pid pid2 i : String)
    (hne : pid ≠ pid2) :
    (es.map (fun e2 => Event.queueTimeout e2.userId pid2 e2.id)).count
      (Event.queueTimeout u pid i) = 0 := by
  rw [List.count_eq_zero]
  intro hmem
  obtain ⟨x, _, hx⟩ := List.mem_map.mp hmem
  injection hx with h1 h2 h3
  exact hne h2.symm

theorem count_timeout_map_zero (es : List QueueItem) (u pid i : String)
    (h : i ∉ es.map QueueItem.id) :
    (es.map (fun e2 => Event.queueTimeout e2.userId pid e2.id)).count
      (Event.queueTimeout u pid i) = 0 := by
  rw [List.count_eq_zero]
  intro hmem
  obtain ⟨x, hxm, hx⟩ := List.mem_map.mp hmem
  injection hx with h1 h2 h3
  exact h (h3 ▸ List.mem_map.mpr ⟨x, hxm, rfl⟩)

theorem count_timeout_map_self (es : List QueueItem) (pid : String)
    (e : QueueItem) (hnd : (es.map QueueItem.id).Nodup) (he : e ∈ es) :
    (es.map (fun e2 => Event.queueTimeout e2.userId pid e2.id)).count
      (Event.queueTimeout e.userId pid e.id) = 1 := by
  induction es with
  | nil => cases he
  | cons a rest ih =>
    simp only [List.map_cons, List.nodup_cons] at hnd
    rw [List.map_cons, List.count_cons]
    rcases List.mem_cons.mp he with heq | hrest
    · subst heq
      rw [count_timeout_map_zero rest e.userId pid e.id hnd.1]
      simp
    · have hne : e.id ≠ a.id := by
        intro hcontra
        exact hnd.1 (hcontra ▸ List.mem_map.mpr ⟨e, hrest, rfl⟩)
      rw [ih hnd.2 hrest]
      have hb : (Event.queueTimeout a.userId pid a.id ==
          Event.queueTimeout e.userId pid e.id) = false := by
        simp only [beq_eq_false_iff_ne, ne_eq]
        intro hcontra
        injection hcontra with h1 h2 h3
        exact hne h3.symm
      rw [hb]
      simp

theorem count_sweepEvents_self (now : Nat) (pid : String) (pq : ProductQueue)
    (e : QueueItem) (hnd : (pq.items.map QueueItem.id).Nodup)
    (he : e ∈ expiredOf pq now) :
    (sweepEvents now pid pq).count
      (Event.queueTimeout e.userId pid e.id) = 1 := by
  unfold sweepEvents
  rw [List.count_append]
  have hnd2 : ((expiredOf pq now).map QueueItem.id).Nodup :=
    ((List.filter_sublist pq.items).map QueueItem.id).nodup hnd
  rw [count_timeout_map_self (expiredOf pq now) pid e hnd2 he]
  by_cases hexp : 0 < (expiredOf pq now).length
  · rw [if_pos hexp, count_timeout_updates]
  · rw [if_neg hexp]
    simp

theorem count_sweepEvents_ne (now : Nat) (pid pid2 : String)
    (pq : ProductQueue) (u i : String) (hne : pid ≠ pid2) :
    (sweepEvents now pid2 pq).count (Event.queueTimeout u pid i) = 0 := by
  unfold sweepEvents
  rw [List.count_append]
  rw [count_timeout_map_ne_pid (expiredOf pq now) u pid pid2 i hne]
  by_cases hexp : 0 < (expiredOf pq now).length
  · rw [if_pos hexp, count_timeout_updates]
  · rw [if_neg hexp]
    simp

theorem count_join_sweepEvents_zero (now : Nat) (u pid i : String)
    (rem : List (String × ProductQueue)) (h : pid ∉ rem.map Prod.fst) :
    ((rem.map (fun en => sweepEvents now en.1 en.2)).join).count
      (Event.queueTimeout u pid i) = 0 := by
  induction rem with
  | nil => simp
  | cons en rem ih =>
    simp only [List.map_cons, List.mem_cons] at h
    push_neg at h
    rw [List.map_cons]
    rw [show ((sweepEvents now en.1 en.2) ::
        (rem.map (fun en2 => sweepEvents now en2.1 en2.2))).join =
        sweepEvents now en.1 en.2 ++
          (rem.map (fun en2 => sweepEvents now en2.1 en2.2)).join from rfl]
    rw [List.count_append]
    rw [count_sweepEvents_ne now pid en.1 en.2 u i h.1]
    rw [show ((rem.map (fun en2 => sweepEvents now en2.1 en2.2)).join).count
        (Event.queueTimeout u pid i) = 0 from ih h.2]

theorem count_join_sweepEvents_one (now : Nat)
    (rem : List (String × ProductQueue)) :
    ∀ (pid : String) (pq : ProductQueue),
    (rem.map Prod.fst).Nodup →
    (∀ en ∈ rem, (en.2.items.map QueueItem.id).Nodup) →
    (pid, pq) ∈ rem →
    ∀ e ∈ expiredOf pq now,
    ((rem.map (fun en => sweepEvents now en.1 en.2)).join).count
      (Event.queueTimeout e.userId pid e.id) = 1 := by
  induction rem with
  | nil => intro pid pq _ _ hmem; cases hmem
  | cons en rem ih =>
    intro pid pq hkeys hnds hmem e he
    simp only [List.map_cons, List.nodup_cons] at hkeys
    rw [List.map_cons]
    rw [show ((sweepEvents now en.1 en.2) ::
        (rem.map (fun en2 => sweepEvents now en2.1 en2.2))).join =
        sweepEvents now en.1 en.2 ++
          (rem.map (fun en2 => sweepEvents now en2.1 en2.2)).join from rfl]
    rw [List.count_append]
    rcases List.mem_cons.mp hmem with heq | hrest
    · have hpid : en.1 = pid := by rw [← heq]
      have hpq : en.2 = pq := by rw [← heq]
      have hnden : (pq.items.map QueueItem.id).Nodup :=
        hpq ▸ hnds en (by simp)
      rw [hpid, hpq]
      rw [count_sweepEvents_self now pid pq e hnden he]
      rw [count_join_sweepEvents_zero now e.userId pid e.id rem
        (hpid ▸ hkeys.1)]
    · have hne : en.1 ≠ pid := by
        intro hcontra
        exact hkeys.1 (hcontra ▸ List.mem_map.mpr ⟨(pid, pq), hrest, rfl⟩)
      rw [count_sweepEvents_ne now pid en.1 en.2 e.userId e.id (Ne.symm hne)]
      rw [ih pid pq hkeys.2
        (fun e2 he2 => hnds e2 (by simp [he2])) hrest e he]

theorem reservedTotal_mapSet_self (st : QueueState) (pid : String)
    (pq : ProductQueue) (m : List (String × ProductQueue)) :
    reservedTotal { st with productQueues := mapSet m pid pq } pid =
      itemsSum pq.items := by
  unfold reservedTotal
  rw [show ({ st with productQueues := mapSet m pid pq } : QueueState).productQueues
      = mapSet m pid pq from rfl]
  rw [lookup_mapSet_self]

theorem reservedTotal_mapSet_ne (st : QueueState) (pid pid2 : String)
    (pq : ProductQueue) (m : List (String × ProductQueue)) (h : pid ≠ pid2) :
    reservedTotal { st with productQueues := mapSet m pid pq } pid2 =
      match List.lookup pid2 m with
      | some pq2 => itemsSum pq2.items
      | none => 0 := by
  unfold reservedTotal
  rw [show ({ st with productQueues := mapSet m pid pq } : QueueState).productQueues
      = mapSet m pid pq from rfl]
  rw [lookup_mapSet_ne m pid pid2 pq h]

theorem nodup_ids_append_fresh (items : List QueueItem) (it : QueueItem)
    (hnd : (items.map QueueItem.id).Nodup)
    (hfresh : it.id ∉ items.map QueueItem.id) :
    ((items ++ [it]).map QueueItem.id).Nodup := by
  rw [List.map_append]
  rw [List.nodup_append]
  refine ⟨hnd, by simp, ?_⟩
  intro a ha
  simp only [List.map_cons, List.map_nil, List.mem_singleton]
  intro hcontra
  exact hfresh (hcontra ▸ ha)

theorem reservedTotal_eq_of_lookup (st : QueueState) (pid : String)
    (pq : ProductQueue) (h : List.lookup pid st.productQueues = some pq) :
    reservedTotal st pid = itemsSum pq.items := by
  unfold reservedTotal
  rw [h]

theorem reservedTotal_eq_zero_of_none (st : QueueState) (pid : String)
    (h : List.lookup pid st.productQueues = none) :
    reservedTotal st pid = 0 := by
  unfold reservedTotal
  rw [h]

theorem joinQueue_success_state (st : QueueState) (u pid : String) (q : Int)
    (ue un : String) (now : Nat) (qid : String) (p : Product)
    (hfind : st.products.find? (fun p2 => p2.id == pid) = some p)
    (hstock : ¬(p.stock < q))
    (huser : isUserInQueue st u pid = false)
    (hcap : ¬((targetQueue st pid p.stock).maxQueueSize ≤
      ((targetQueue st pid p.stock).items.length : Int))) :
    (∀ pid2, List.lookup pid2
        (joinQueue st u pid q ue un now qid).1.productQueues =
      if pid2 = pid then
        some { targetQueue st pid p.stock with
               items := (targetQueue st pid p.stock).items ++
                 [joinItem u pid q ue un now
                   (targetQueue st pid p.stock).processingTimeout qid] }
      else List.lookup pid2 st.productQueues) ∧
    (joinQueue st u pid q ue un now qid).1.products =
      incStock st.products pid (-q) ∧
    (joinQueue st u pid q ue un now qid).1.userQueues =
      userQueuesAdd st.userQueues u pid ∧
    (∀ e, e ∈ (joinQueue st u pid q ue un now qid).1.productQueues →
      e = (pid, { targetQueue st pid p.stock with
               items := (targetQueue st pid p.stock).items ++
                 [joinItem u pid q ue un now
                   (targetQueue st pid p.stock).processingTimeout qid] }) ∨
      e = (pid, initializeProductQueue pid p.stock) ∨
      e ∈ st.productQueues) ∧
    ((st.productQueues.map Prod.fst).Nodup →
      (((joinQueue st u pid q ue un now qid).1.productQueues).map
        Prod.fst).Nodup) := by
  cases hlk : List.lookup pid st.productQueues with
  | some pq =>
    have htq : targetQueue st pid p.stock = pq := by
      simp only [targetQueue, hlk]
    rw [htq] at hcap ⊢
    simp only [joinQueue, hfind, if_neg hstock, huser, Bool.false_eq_true,
      if_false, hlk, if_neg hcap, reserveStock]
    refine ⟨?_, by trivial, by trivial, ?_, ?_⟩
    · intro pid2
      by_cases hp2 : pid2 = pid
      · subst hp2
        rw [if_pos rfl]
        exact lookup_mapSet_self st.productQueues pid2 _
      · rw [if_neg hp2]
        exact lookup_mapSet_ne st.productQueues pid pid2 _
          (fun h2 => hp2 h2.symm)
    · intro e he
      rcases mem_mapSet st.productQueues pid _ e he with heq | hold
      · exact Or.inl heq
      · exact Or.inr (Or.inr hold)
    · intro hkeys
      exact keys_mapSet st.productQueues pid _ hkeys
  | none =>
    have htq : targetQueue st pid p.stock = initializeProductQueue pid p.stock := by
      simp only [targetQueue, hlk]
    rw [htq] at hcap ⊢
    simp only [joinQueue, hfind, if_neg hstock, huser, Bool.false_eq_true,
      if_false, hlk, if_neg hcap, reserveStock]
    refine ⟨?_, by trivial, by trivial, ?_, ?_⟩
    · intro pid2
      by_cases hp2 : pid2 = pid
      · subst hp2
        rw [if_pos rfl]
        exact lookup_mapSet_self _ pid2 _
      · rw [if_neg hp2]
        rw [lookup_mapSet_ne _ pid pid2 _ (fun h2 => hp2 h2.symm)]
        exact lookup_mapSet_ne st.productQueues pid pid2 _
          (fun h2 => hp2 h2.symm)
    · intro e he
      rcases mem_mapSet _ pid _ e he with heq | hold
      · exact Or.inl heq
      · rcases mem_mapSet st.productQueues pid _ e hold with heq2 | hold2
        · exact Or.inr (Or.inl heq2)
        · exact Or.inr (Or.inr hold2)
    · intro hkeys
      exact keys_mapSet _ pid _ (keys_mapSet st.productQueues pid _ hkeys)

theorem joinQueue_preserves (st : QueueState) (truth : String → Int)
    (u pid : String) (q : Int) (ue un : String) (now : Nat) (qid : String)
    (hwf : stateWf st)
    (hop : opWf st (Op.join u pid q ue un now qid) = true)
    (hc : conservation st truth) :
    conservation (joinQueue st u pid q ue un now qid).1 truth ∧
      stateWf (joinQueue st u pid q ue un now qid).1 := by
  obtain ⟨hkeys, hents⟩ := hwf
  cases hfind : st.products.find? (fun p2 => p2.id == pid) with
  | none =>
    simp only [joinQueue, hfind]
    exact ⟨hc, hkeys, hents⟩
  | some p =>
    have hhas : hasProduct st.products pid :=
      (find?_isSome_iff_hasProduct st.products pid).mp (by simp [hfind])
    by_cases hstock : p.stock < q
    · simp only [joinQueue, hfind, if_pos hstock]
      exact ⟨hc, hkeys, hents⟩
    · cases huser : isUserInQueue st u pid with
      | true =>
        simp only [joinQueue, hfind, if_neg hstock, huser, if_true]
        exact ⟨hc, hkeys, hents⟩
      | false =>
        have hfreshT : qid ∉ (targetQueue st pid p.stock).items.map
            QueueItem.id := by
          have hop2 : (match List.lookup pid st.productQueues with
            | some pq2 => !((pq2.items.map QueueItem.id).contains qid)
            | none => true) = true := hop
          unfold targetQueue
          cases hlk : List.lookup pid st.productQueues with
          | some pq2 =>
            rw [hlk] at hop2
            simpa using hop2
          | none => simp [initializeProductQueue]
        have hndT : ((targetQueue st pid p.stock).items.map
            QueueItem.id).Nodup := by
          unfold targetQueue
          cases hlk : List.lookup pid st.productQueues with
          | some pq2 =>
            exact (hents (pid, pq2)
              (lookup_mem st.productQueues pid pq2 hlk)).2
          | none => simp [initializeProductQueue]
        have hrtT : reservedTotal st pid =
            itemsSum (targetQueue st pid p.stock).items := by
          unfold reservedTotal targetQueue
          cases hlk : List.lookup pid st.productQueues with
          | some pq2 => rfl
          | none => simp [initializeProductQueue, itemsSum]
        by_cases hcap : (targetQueue st pid p.stock).maxQueueSize ≤
            ((targetQueue st pid p.stock).items.length : Int)
        · -- capacity failure: the state is unchanged except that a fresh
          -- empty queue record may have been created
          cases hlk : List.lookup pid st.productQueues with
          | some pq =>
            have htq : targetQueue st pid p.stock = pq := by
              simp only [targetQueue, hlk]
            rw [htq] at hcap
            simp only [joinQueue, hfind, if_neg hstock, huser,
              Bool.false_eq_true, if_false, hlk, if_pos hcap]
            exact ⟨hc, hkeys, hents⟩
          | none =>
            have htq : targetQueue st pid p.stock =
                initializeProductQueue pid p.stock := by
              simp only [targetQueue, hlk]
            rw [htq] at hcap
            simp only [joinQueue, hfind, if_neg hstock, huser,
              Bool.false_eq_true, if_false, hlk, if_pos hcap]
            constructor
            · intro pid2
              by_cases hp2 : pid2 = pid
              · subst hp2
                rw [reservedTotal_mapSet_self st pid2
                  (initializeProductQueue pid2 p.stock) st.productQueues]
                rw [show itemsSum (initializeProductQueue pid2 p.stock).items
                    = 0 by simp [initializeProductQueue, itemsSum]]
                have h5 := hc pid2
                rw [reservedTotal_eq_zero_of_none st pid2 hlk] at h5
                exact h5
              · rw [reservedTotal_mapSet_ne st pid pid2
                  (initializeProductQueue pid p.stock) st.productQueues
                  (fun h2 => hp2 h2.symm)]
                exact hc pid2
            · constructor
              · exact keys_mapSet st.productQueues pid _ hkeys
              · intro e he
                rcases mem_mapSet st.productQueues pid _ e he with heq | hold
                · subst heq
                  exact ⟨hhas, by simp [initializeProductQueue]⟩
                · exact hents e hold
        · obtain ⟨hlookup, hprod, huq, hmem2, hkeys2⟩ :=
            joinQueue_success_state st u pid q ue un now qid p hfind hstock
              huser hcap
          constructor
          · intro pid2
            by_cases hp2 : pid2 = pid
            · subst hp2
              rw [reservedTotal_eq_of_lookup _ pid2 _
                (by rw [hlookup pid2, if_pos rfl])]
              rw [show stockIn (joinQueue st u pid2 q ue un now qid).1.products
                  pid2 = stockIn st.products pid2 + (-q) from by
                rw [hprod]
                exact stockIn_incStock_self st.products pid2 (-q) hhas]
              rw [itemsSum_append]
              rw [show itemsSum [joinItem u pid2 q ue un now
                  (targetQueue st pid2 p.stock).processingTimeout qid] = q
                from by simp [itemsSum, joinItem]]
              have := hc pid2
              rw [hrtT] at this
              omega
            · have hrt2 : reservedTotal
                  (joinQueue st u pid q ue un now qid).1 pid2 =
                  reservedTotal st pid2 := by
                unfold reservedTotal
                rw [hlookup pid2, if_neg hp2]
              rw [hrt2]
              rw [show stockIn (joinQueue st u pid q ue un now qid).1.products
                  pid2 = stockIn st.products pid2 from by
                rw [hprod]
                exact stockIn_incStock_ne st.products pid pid2 (-q)
                  (fun h2 => hp2 h2.symm)]
              exact hc pid2
          · constructor
            · exact hkeys2 hkeys
            · intro e he
              have hhase : hasProduct
                  (joinQueue st u pid q ue un now qid).1.products e.1 →
                  True := fun _ => trivial
              rcases hmem2 e he with heq | heq | hold
              · subst heq
                refine ⟨?_, ?_⟩
                · unfold hasProduct
                  rw [hprod, incStock_map_id]
                  exact hhas
                · exact nodup_ids_append_fresh _ _ hndT hfreshT
              · subst heq
                refine ⟨?_, by simp [initializeProductQueue]⟩
                unfold hasProduct
                rw [hprod, incStock_map_id]
                exact hhas
              · refine ⟨?_, (hents e hold).2⟩
                unfold hasProduct
                rw [hprod, incStock_map_id]
                exact (hents e hold).1

theorem leaveQueue_success_state (st : QueueState) (u pid : String)
    (qid : Option String) (pq : ProductQueue) (i : Nat) (r : QueueItem)
    (hlk : List.lookup pid st.productQueues = some pq)
    (hidx : findIndex (leaveMatch u qid) pq.items = some i)
    (hr : pq.items[i]? = some r) :
    (∀ pid2, List.lookup pid2 (leaveQueue st u pid qid).1.productQueues =
      if pid2 = pid then some { pq with items := pq.items.eraseIdx i }
      else List.lookup pid2 st.productQueues) ∧
    (leaveQueue st u pid qid).1.products =
      incStock st.products pid r.quantity ∧
    (∀ e, e ∈ (leaveQueue st u pid qid).1.productQueues →
      e = (pid, { pq with items := pq.items.eraseIdx i }) ∨
      e ∈ st.productQueues) ∧
    ((st.productQueues.map Prod.fst).Nodup →
      (((leaveQueue st u pid qid).1.productQueues).map Prod.fst).Nodup) := by
  simp only [leaveQueue, hlk, hidx, hr, releaseReservedStock]
  refine ⟨?_, by trivial, ?_, ?_⟩
  · intro pid2
    by_cases hp2 : pid2 = pid
    · subst hp2
      rw [if_pos rfl]
      exact lookup_mapSet_self st.productQueues pid2 _
    · rw [if_neg hp2]
      exact lookup_mapSet_ne st.productQueues pid pid2 _
        (fun h2 => hp2 h2.symm)
  · intro e he
    exact mem_mapSet st.productQueues pid _ e he
  · intro hkeys
    exact keys_mapSet st.productQueues pid _ hkeys

theorem leaveQueue_preserves (st : QueueState) (truth : String → Int)
    (u pid : String) (qid : Option String)
    (hwf : stateWf st) (hc : conservation st truth) :
    conservation (leaveQueue st u pid qid).1 truth ∧
      stateWf (leaveQueue st u pid qid).1 := by
  obtain ⟨hkeys, hents⟩ := hwf
  cases hlk : List.lookup pid st.productQueues with
  | none =>
    simp only [leaveQueue, hlk]
    exact ⟨hc, hkeys, hents⟩
  | some pq =>
    cases hidx : findIndex (leaveMatch u qid) pq.items with
    | none =>
      simp only [leaveQueue, hlk, hidx]
      exact ⟨hc, hkeys, hents⟩
    | some i =>
      cases hr : pq.items[i]? with
      | none =>
        simp only [leaveQueue, hlk, hidx, hr]
        exact ⟨hc, hkeys, hents⟩
      | some r =>
        have hhas : hasProduct st.products pid :=
          (hents (pid, pq) (lookup_mem st.productQueues pid pq hlk)).1
        have hnd : (pq.items.map QueueItem.id).Nodup :=
          (hents (pid, pq) (lookup_mem st.productQueues pid pq hlk)).2
        obtain ⟨hlookup, hprod, hmem2, hkeys2⟩ :=
          leaveQueue_success_state st u pid qid pq i r hlk hidx hr
        constructor
        · intro pid2
          by_cases hp2 : pid2 = pid
          · subst hp2
            rw [reservedTotal_eq_of_lookup _ pid2 _
              (by rw [hlookup pid2, if_pos rfl])]
            rw [show ({ pq with items := pq.items.eraseIdx i } :
                ProductQueue).items = pq.items.eraseIdx i from rfl]
            rw [itemsSum_eraseIdx pq.items i r hr]
            rw [show stockIn (leaveQueue st u pid2 qid).1.products pid2 =
                stockIn st.products pid2 + r.quantity from by
              rw [hprod]
              exact stockIn_incStock_self st.products pid2 r.quantity hhas]
            have h5 := hc pid2
            rw [reservedTotal_eq_of_lookup st pid2 pq hlk] at h5
            omega
          · have hrt2 : reservedTotal (leaveQueue st u pid qid).1 pid2 =
                reservedTotal st pid2 := by
              unfold reservedTotal
              rw [hlookup pid2, if_neg hp2]
            rw [hrt2]
            rw [show stockIn (leaveQueue st u pid qid).1.products pid2 =
                stockIn st.products pid2 from by
              rw [hprod]
              exact stockIn_incStock_ne st.products pid pid2 r.quantity
                (fun h2 => hp2 h2.symm)]
            exact hc pid2
        · constructor
          · exact hkeys2 hkeys
          · intro e he
            rcases hmem2 e he with heq | hold
            · subst heq
              refine ⟨?_, ?_⟩
              · unfold hasProduct
                rw [hprod, incStock_map_id]
                exact hhas
              · exact ((List.eraseIdx_sublist pq.items i).map
                  QueueItem.id).nodup hnd
            · refine ⟨?_, (hents e hold).2⟩
              unfold hasProduct
              rw [hprod, incStock_map_id]
              exact (hents e hold).1

theorem cleanupQueue_wf (now : Nat) (pid : String) (pq : ProductQueue)
    (st : QueueState) (hnd : (pq.items.map QueueItem.id).Nodup)
    (hhas : hasProduct st.products pid) (hwf : stateWf st) :
    stateWf (cleanupQueue now pid pq st).1 := by
  obtain ⟨hkeys, hents⟩ := hwf
  rw [cleanupQueue_spec now pid pq st hnd]
  have hndlive : ((liveOf pq now).map QueueItem.id).Nodup :=
    ((List.filter_sublist pq.items).map QueueItem.id).nodup hnd
  by_cases hlen : (liveOf pq now).length = 0
  · rw [if_pos hlen]
    constructor
    · exact keys_mapDelete _ pid (keys_mapSet st.productQueues pid _ hkeys)
    · intro e he
      have he2 : e ∈ mapDelete (mapSet st.productQueues pid
          { pq with items := liveOf pq now }) pid := he
      rcases mem_mapSet st.productQueues pid _ e
          (mem_mapDelete _ pid e he2) with heq | hold
      · subst heq
        exact ⟨(hasProduct_incStock st.products pid pid _).mpr hhas, hndlive⟩
      · exact ⟨(hasProduct_incStock st.products pid e.1 _).mpr
          (hents e hold).1, (hents e hold).2⟩
  · rw [if_neg hlen]
    constructor
    · exact keys_mapSet st.productQueues pid _ hkeys
    · intro e he
      have he2 : e ∈ mapSet st.productQueues pid
          { pq with items := liveOf pq now } := he
      rcases mem_mapSet st.productQueues pid _ e he2 with heq | hold
      · subst heq
        exact ⟨(hasProduct_incStock st.products pid pid _).mpr hhas, hndlive⟩
      · exact ⟨(hasProduct_incStock st.products pid e.1 _).mpr
          (hents e hold).1, (hents e hold).2⟩

theorem sweep_fold_wf (now : Nat) (rem : List (String × ProductQueue)) :
    ∀ (st : QueueState) (evs : List Event),
    stateWf st →
    (∀ en ∈ rem, (en.2.items.map QueueItem.id).Nodup ∧
      hasProduct st.products en.1) →
    stateWf (rem.foldl (sweepStep now) (st, evs)).1 := by
  induction rem with
  | nil => intro st evs hwf _; exact hwf
  | cons en rem ih =>
    intro st evs hwf hrem
    rw [List.foldl_cons]
    rw [show sweepStep now (st, evs) en =
        ((cleanupQueue now en.1 en.2 st).1,
         evs ++ (cleanupQueue now en.1 en.2 st).2) from rfl]
    apply ih
    · exact cleanupQueue_wf now en.1 en.2 st (hrem en (by simp)).1
        (hrem en (by simp)).2 hwf
    · intro en2 hen2
      refine ⟨(hrem en2 (by simp [hen2])).1, ?_⟩
      unfold hasProduct
      rw [cleanupQueue_products_id now en.1 en.2 st (hrem en (by simp)).1]
      exact (hrem en2 (by simp [hen2])).2

theorem sweep_preserves (st : QueueState) (truth : String → Int) (now : Nat)
    (hwf : stateWf st) (hc : conservation st truth) :
    conservation (cleanupExpiredItems st now).1 truth ∧
      stateWf (cleanupExpiredItems st now).1 := by
  obtain ⟨hkeys, hents⟩ := hwf
  unfold cleanupExpiredItems
  constructor
  · intro pid
    cases hlk : List.lookup pid st.productQueues with
    | none =>
      have hnm := (lookup_eq_none_iff st.productQueues pid).mp hlk
      have h1 := sweep_fold_lookup_frame now pid st.productQueues st []
        (fun en hen => (hents en hen).2) hnm
      have h2 := sweep_fold_stock_frame now pid st.productQueues st []
        (fun en hen => (hents en hen).2) hnm
      rw [reservedTotal_eq_zero_of_none _ pid (by rw [h1, hlk]), h2]
      have h5 := hc pid
      rw [reservedTotal_eq_zero_of_none st pid hlk] at h5
      exact h5
    | some pq =>
      have hmem := lookup_mem st.productQueues pid pq hlk
      obtain ⟨ha, hb, _⟩ := sweep_fold_state_spec now st.productQueues st []
        pid pq hkeys (fun en hen => (hents en hen).2) hmem (hents _ hmem).1
      have hpart : itemsSum (expiredOf pq now) + itemsSum (liveOf pq now) =
          itemsSum pq.items :=
        itemsSum_partition (fun it => decide (it.expiresAt ≤ now)) pq.items
      have h5 := hc pid
      rw [reservedTotal_eq_of_lookup st pid pq hlk] at h5
      by_cases hlen : (liveOf pq now).length = 0
      · have hlive0 : itemsSum (liveOf pq now) = 0 := by
          rw [List.length_eq_zero.mp hlen]
          simp [itemsSum]
        rw [reservedTotal_eq_zero_of_none _ pid (by rw [ha, if_pos hlen]),
          hb]
        omega
      · have hrt := reservedTotal_eq_of_lookup _ pid
          { pq with items := liveOf pq now } (by rw [ha, if_neg hlen])
        rw [show ({ pq with items := liveOf pq now } :
            ProductQueue).items = liveOf pq now from rfl] at hrt
        rw [hrt, hb]
        omega
  · exact sweep_fold_wf now st.productQueues st [] ⟨hkeys, hents⟩
      (fun en hen => ⟨(hents en hen).2, (hents en hen).1⟩)

/-- Claim C2: every operation of the service — join, leave,
paymentSucceeded, and the sweep tick — preserves the conservation
invariant: for every resource, the reserved quantity total plus the
externally visible available stock equals the stock at the last known
truth.  The structural well-formedness of the state (queue-map keys and
entry ids distinct, queued resources backed by product records) is
preserved as well, so the invariant holds after every operation along any
execution. -/
theorem conservation_preserved (st : QueueState) (truth : String → Int)
    (op : Op) (hwf : stateWf st) (hop : opWf st op = true)
    (hc : conservation st truth) :
    conservation (applyOp st op) truth ∧ stateWf (applyOp st op) := by
  cases op with
  | join u pid q ue un now qid =>
    exact joinQueue_preserves st truth u pid q ue un now qid hwf hop hc
  | leave u pid qid =>
    exact leaveQueue_preserves st truth u pid qid hwf hc
  | paySuccess u pid q =>
    exact leaveQueue_preserves st truth u pid none hwf hc
  | sweep now =>
    exact sweep_preserves st truth now hwf hc

/-- The stock truth function of the concrete one-entry scenario state. -/
def exTruth : String → Int :=
  fun pid => reservedTotal exampleJoined pid + stockIn exampleJoined.products pid

theorem conservation_preserved_witness :
    stateWf exampleJoined ∧
    opWf exampleJoined (Op.leave "A" "R" none) = true ∧
    conservation (applyOp exampleJoined (Op.leave "A" "R" none)) exTruth :=
  ⟨by decide, by decide,
   (conservation_preserved exampleJoined exTruth (Op.leave "A" "R" none)
     (by decide) (by decide) (fun pid => rfl)).1⟩

/-- Claim C6: one sweep tick at time `now` removes every entry with
`expiresAt ≤ now` from its queue (keeping the live entries in their
original order), releases each expired entry's reserved quantity back to
the stock, removes the resource from each expired user's reverse index,
and emits exactly one `queue.timeout` event per expired entry. -/
theorem cleanup_sweep_spec (st : QueueState) (now : Nat) (hwf : stateWf st)
    (pid : String) (pq : ProductQueue)
    (hpq : List.lookup pid st.productQueues = some pq) :
    (List.lookup pid (cleanupExpiredItems st now).1.productQueues =
      if (liveOf pq now).length = 0 then none
      else some { pq with items := liveOf pq now }) ∧
    stockIn (cleanupExpiredItems st now).1.products pid =
      stockIn st.products pid + itemsSum (expiredOf pq now) ∧
    ∀ e ∈ expiredOf pq now,
      (cleanupExpiredItems st now).2.count
          (Event.queueTimeout e.userId pid e.id) = 1 ∧
      pid ∉ userQueuesGet (cleanupExpiredItems st now).1.userQueues
        e.userId := by
  obtain ⟨hkeys, hents⟩ := hwf
  have hmem : (pid, pq) ∈ st.productQueues :=
    lookup_mem st.productQueues pid pq hpq
  have hnds : ∀ en ∈ st.productQueues,
      (en.2.items.map QueueItem.id).Nodup :=
    fun en hen => (hents en hen).2
  unfold cleanupExpiredItems
  obtain ⟨ha, hb, hc⟩ := sweep_fold_state_spec now st.productQueues st []
    pid pq hkeys hnds hmem (hents _ hmem).1
  refine ⟨ha, hb, fun e he => ⟨?_, hc e he⟩⟩
  rw [sweep_fold_events now st.productQueues st [] hnds]
  rw [List.nil_append]
  exact count_join_sweepEvents_one now st.productQueues pid pq hkeys hnds
    hmem e he

/-- The queue record of `exampleJoined` for resource R. -/
def exampleJoinedPQ : ProductQueue :=
  { productId := "R"
    maxQueueSize := 10
    items := [joinItem "A" "R" 2 "a@x" "Alice" 0 DEFAULT_TIMEOUT "q1"]
    processingTimeout := DEFAULT_TIMEOUT
    isActive := true }

theorem cleanup_sweep_spec_witness :
    stateWf exampleJoined ∧
    List.lookup "R" exampleJoined.productQueues = some exampleJoinedPQ ∧
    List.lookup "R"
      (cleanupExpiredItems exampleJoined 1000000000).1.productQueues =
      none := by
  refine ⟨by decide, by decide, ?_⟩
  have h := (cleanup_sweep_spec exampleJoined 1000000000 (by decide) "R"
    exampleJoinedPQ (by decide)).1
  rw [if_pos (show (liveOf exampleJoinedPQ 1000000000).length = 0 from
    by decide)] at h
  exact h

/-- Claim C5 (amended): empty ResourceQueue records are deleted only by the
periodic sweep — after a sweep tick no queue record has an empty entry
list — while a `leave` that empties the queue leaves the emptied record in
place until the next tick. -/
theorem emptyQueue_deleted_only_by_sweep (st : QueueState) (now : Nat)
    (hwf : stateWf st) :
    (∀ pid pq,
      List.lookup pid (cleanupExpiredItems st now).1.productQueues =
        some pq → pq.items ≠ []) ∧
    (∀ u pid qid pq i r,
      List.lookup pid st.productQueues = some pq →
      findIndex (leaveMatch u qid) pq.items = some i →
      pq.items[i]? = some r →
      List.lookup pid (leaveQueue st u pid qid).1.productQueues =
        some { pq with items := pq.items.eraseIdx i }) := by
  obtain ⟨hkeys, hents⟩ := hwf
  have hnds : ∀ en ∈ st.productQueues,
      (en.2.items.map QueueItem.id).Nodup :=
    fun en hen => (hents en hen).2
  constructor
  · intro pid pq hlk
    unfold cleanupExpiredItems at hlk
    cases hlk0 : List.lookup pid st.productQueues with
    | none =>
      have hnm := (lookup_eq_none_iff st.productQueues pid).mp hlk0
      rw [sweep_fold_lookup_frame now pid st.productQueues st [] hnds hnm,
        hlk0] at hlk
      exact absurd hlk (by simp)
    | some pq0 =>
      have hmem := lookup_mem st.productQueues pid pq0 hlk0
      have ha := (sweep_fold_state_spec now st.productQueues st [] pid pq0
        hkeys hnds hmem (hents _ hmem).1).1
      rw [ha] at hlk
      by_cases hlen : (liveOf pq0 now).length = 0
      · rw [if_pos hlen] at hlk
        exact absurd hlk (by simp)
      · rw [if_neg hlen] at hlk
        have hpq : pq = { pq0 with items := liveOf pq0 now } := by
          injection hlk with h2
          exact h2.symm
        rw [hpq]
        intro hcontra
        have : (liveOf pq0 now).length = 0 := by
          rw [show liveOf pq0 now = ({ pq0 with items := liveOf pq0 now } :
            ProductQueue).items from rfl, hcontra]
          rfl
        exact hlen this
  · intro u pid qid pq i r hpq hidx hr
    simp only [leaveQueue, hpq, hidx, hr, releaseReservedStock]
    exact lookup_mapSet_self st.productQueues pid _

theorem emptyQueue_deleted_only_by_sweep_witness :
    stateWf exampleJoined ∧
    List.lookup "R" (leaveQueue exampleJoined "A" "R" none).1.productQueues =
      some { exampleJoinedPQ with
             items := exampleJoinedPQ.items.eraseIdx 0 } := by
  refine ⟨by decide, ?_⟩
  exact (emptyQueue_deleted_only_by_sweep exampleJoined 0 (by decide)).2
    "A" "R" none exampleJoinedPQ 0
    (joinItem "A" "R" 2 "a@x" "Alice" 0 DEFAULT_TIMEOUT "q1")
    (by decide) (by decide) (by decide)

/-- Claim C3 (amended): a queue's capacity is
`min(DEFAULT_QUEUE_SIZE, 2 × stockAtCreation)` with
`DEFAULT_QUEUE_SIZE = 10`, and a join attempted while the queue already
holds `maxSize` entries always fails; it fails with the QueueFull result
when the earlier checks (resource exists, sufficient stock, user not
already queued) pass, and otherwise with the earlier check's own result. -/
theorem joinQueue_capacity_spec :
    (∀ pid stock, (initializeProductQueue pid stock).maxQueueSize =
      min DEFAULT_QUEUE_SIZE (stock * 2)) ∧
    (∀ (st : QueueState) (u pid : String) (q : Int) (ue un : String)
      (now : Nat) (qid : String) (pq : ProductQueue),
      List.lookup pid st.productQueues = some pq →
      pq.maxQueueSize ≤ (pq.items.length : Int) →
      (joinQueue st u pid q ue un now qid).2.1.success = false) ∧
    (∀ (st : QueueState) (u pid : String) (q : Int) (ue un : String)
      (now : Nat) (qid : String) (p : Product) (pq : ProductQueue),
      st.products.find? (fun p2 => p2.id == pid) = some p →
      ¬(p.stock < q) → isUserInQueue st u pid = false →
      List.lookup pid st.productQueues = some pq →
      pq.maxQueueSize ≤ (pq.items.length : Int) →
      joinQueue st u pid q ue un now qid =
        (st,
         joinFail
           "Product is currently unavailable due to high demand. Please try again later.",
         [])) := by
  refine ⟨fun pid stock => rfl, ?_, ?_⟩
  · intro st u pid q ue un now qid pq hlk hfull
    cases hfind : st.products.find? (fun p2 => p2.id == pid) with
    | none => simp only [joinQueue, hfind, joinFail]
    | some p =>
      by_cases hstock : p.stock < q
      · simp only [joinQueue, hfind, if_pos hstock, joinFail]
      · cases huser : isUserInQueue st u pid with
        | true =>
          simp only [joinQueue, hfind, if_neg hstock, huser, if_true,
            joinFail]
        | false =>
          simp only [joinQueue, hfind, if_neg hstock, huser,
            Bool.false_eq_true, if_false, hlk, if_pos hfull, joinFail]
  · intro st u pid q ue un now qid p pq hfind hstock huser hlk hfull
    simp only [joinQueue, hfind, if_neg hstock, huser, Bool.false_eq_true,
      if_false, hlk, if_pos hfull]

/-- The ten queue entries of `c3State`. -/
def c3PQ : ProductQueue :=
  { productId := "R"
    maxQueueSize := 10
    items := c3Users.map
      (fun u => joinItem u "R" 1 "e" "n" 0 DEFAULT_TIMEOUT ("id" ++ u))
    processingTimeout := DEFAULT_TIMEOUT
    isActive := true }

theorem joinQueue_capacity_spec_witness :
    List.lookup "R" c3State.productQueues = some c3PQ ∧
    c3PQ.maxQueueSize ≤ (c3PQ.items.length : Int) ∧
    (joinQueue c3State "u10" "R" 1 "e" "n" 0 "q10").2.1.success = false := by
  refine ⟨by decide, by decide, ?_⟩
  exact joinQueue_capacity_spec.2.1 c3State "u10" "R" 1 "e" "n" 0 "q10" c3PQ
    (by decide) (by decide)

end Shopverse
